import Mathlib

/-!
Verification of the sd-forge GUI prompt-engine core.

Shallow embedding of the text-processing core of the `sd-forge_py_gui`
repository, together with proofs settling the specification claims.

Embedding conventions:
* Python `dict`s (which preserve insertion order, update keys in place and
  append new keys at the end) are embedded as association lists
  `List (String × PVal)` with the operations `dget` / `dset` below.
* Python `Decimal` arithmetic (exact, scale-tracking) is embedded as the
  structure `Dec` of an integer mantissa and a decimal scale.
* Python `float` weights are embedded as exact rationals `ℚ`; the claims
  settled here never depend on binary floating-point rounding.
* File-system scans are embedded by their resulting streams of raw strings.
-/

set_option maxHeartbeats 1000000

/-- JSON-compatible payload values, modelling the Python objects that
`GenerationRequest.to_payload` (src/sdforge_gui/models.py) stores in the
request dictionary. -/
inductive PVal where
  | str (s : String)
  | int (n : Int)
  | rat (q : ℚ)
  | list (vs : List PVal)
  | obj (fields : List (String × PVal))

/-- A payload dictionary: keys in insertion order, as in a Python `dict`. -/
abbrev Payload := List (String × PVal)

/-- Model of Python `d[key]` / `d.get(key)`: first (unique) binding wins. -/
def dget : Payload → String → Option PVal
  | [], _ => none
  | (k, v) :: rest, key => if k = key then some v else dget rest key

/-- Model of Python `d[key] = v`: update an existing key in place, keeping
its position, else append the new key at the end. -/
def dset : Payload → String → PVal → Payload
  | [], key, v => [(key, v)]
  | (k, w) :: rest, key, v =>
      if k = key then (k, v) :: rest else (k, w) :: dset rest key v

/-- Read the object stored under `key`, defaulting to the empty object:
model of `payload.get(key, {})` / `payload.setdefault(key, {})` reads (the
stored value is always an object at these call sites). -/
def dgetObjD (d : Payload) (key : String) : Payload :=
  match dget d key with
  | some (.obj o) => o
  | _ => []

/-- Model of `payload.setdefault(key, {})[sub] = v` (and of the equivalent
`payload[key] = payload.get(key, {}); payload[key][sub] = v`). -/
def dsetIn (d : Payload) (key sub : String) (v : PVal) : Payload :=
  dset d key (.obj (dset (dgetObjD d key) sub v))

/-- Model of Python `dict.update`: fold `dset` over the supplied entries. -/
def dupdate (d : Payload) (extra : Payload) : Payload :=
  extra.foldl (fun acc kv => dset acc kv.1 kv.2) d

/-! ## Decimal-digit rendering helpers (shared by several components) -/

/-- The ASCII character of a decimal digit. -/
def digitChar (d : Nat) : Char := Char.ofNat (48 + d)

/-- Most-significant-first decimal digits of `n`; fuel-driven so that it
reduces definitionally.  `natDigitsGo fuel n` is correct whenever `n < fuel`. -/
def natDigitsGo : Nat → Nat → List Char
  | 0, _ => []
  | fuel + 1, n =>
      if n < 10 then [digitChar n]
      else natDigitsGo fuel (n / 10) ++ [digitChar (n % 10)]

/-- Standard decimal-digit string of a natural number (`"0"` for zero). -/
def natDigits (n : Nat) : List Char := natDigitsGo (n + 1) n

/-- Parse a run of decimal digits back into a natural number. -/
def digitsToNat (cs : List Char) : Nat :=
  cs.foldl (fun a c => a * 10 + (c.toNat - 48)) 0

/-- Decimal rendering of an integer (used for Python `str` / `format`). -/
def intDigits (n : Int) : List Char :=
  if n < 0 then '-' :: natDigits n.natAbs else natDigits n.natAbs

/-- Model of Python `str.rstrip("0")` on a character list. -/
def rstripZeros (cs : List Char) : List Char :=
  (cs.reverse.dropWhile (fun c => c = '0')).reverse

/-- Model of Python `str.rstrip(".")` on a character list. -/
def rstripDot (cs : List Char) : List Char :=
  (cs.reverse.dropWhile (fun c => c = '.')).reverse

/-- Round a rational to the nearest integer, ties to even: the rounding used
by Python `format(x, ".2f")`. -/
def roundHalfEven (q : ℚ) : Int :=
  let f : Int := ⌊q⌋
  let r : ℚ := q - f
  if r < 1/2 then f
  else if 1/2 < r then f + 1
  else if f % 2 = 0 then f else f + 1

/-- Left-pad a digit string with zeros to the given width. -/
def padDigits (width : Nat) (ds : List Char) : List Char :=
  List.replicate (width - ds.length) '0' ++ ds

/-- Model of Python `f"{q:.2f}"` for an exact rational weight. -/
def fmt2 (q : ℚ) : List Char :=
  let n := roundHalfEven (q * 100)
  let core := fun (m : Nat) =>
    natDigits (m / 100) ++ '.' :: padDigits 2 (natDigits (m % 100))
  if n < 0 then '-' :: core n.natAbs else core n.natAbs

/-! ## src/sdforge_gui/models.py -/

/-- Structure `LoraInfo` (models.py lines 8-24): metadata for an available LoRA.
A plain dataclass: construction performs no validation. -/
structure LoraInfo where
  name : String
  «alias» : Option String := none
  path : Option String := none
deriving DecidableEq

/-- Property `LoraInfo.display_name` (models.py lines 16-20). -/
def LoraInfo.display_name (i : LoraInfo) : String :=
  match i.«alias» with
  | some a =>
      if a ≠ "" ∧ a.toLower ≠ i.name.toLower then a ++ " (" ++ i.name ++ ")"
      else i.name
  | none => i.name

/-- Property `LoraInfo.prompt_name` (models.py lines 22-24): `self.alias or self.name`. -/
def LoraInfo.prompt_name (i : LoraInfo) : String :=
  match i.«alias» with
  | some a => if a ≠ "" then a else i.name
  | none => i.name

/-- Structure `LoraSelection` (models.py lines 27-42). -/
structure LoraSelection where
  name : String
  «alias» : Option String := none
  weight : ℚ := 1
deriving DecidableEq

/-- Method `LoraSelection.prompt_tag` (models.py lines 35-39):
`f"{weight:.2f}".rstrip("0").rstrip(".")`, defaulting to `"1"` if empty. -/
def LoraSelection.prompt_tag (s : LoraSelection) : String :=
  let weight_str := rstripDot (rstripZeros (fmt2 s.weight))
  let weight_str := if weight_str = [] then "1".data else weight_str
  let tagName :=
    match s.«alias» with
    | some a => if a ≠ "" then a else s.name
    | none => s.name
  "<lora:" ++ tagName ++ ":" ++ String.mk weight_str ++ ">"

/-- Method `LoraSelection.to_script_args` (models.py lines 41-42). -/
def LoraSelection.to_script_args (s : LoraSelection) : PVal :=
  .list [.str s.name, .rat s.weight]

/-- Structure `GenerationRequest` (models.py lines 45-67). -/
structure GenerationRequest where
  prompt : String := ""
  negative_prompt : String := ""
  steps : Int := 20
  sampler : String := "Euler a"
  scheduler : Option String := none
  cfg_scale : ℚ := 7
  width : Int := 512
  height : Int := 512
  batch_size : Int := 1
  batch_count : Int := 1
  seed : Int := -1
  subseed : Option Int := none
  clip_skip : Option Int := none
  checkpoint : Option String := none
  vae : Option String := none
  text_encoder : Option String := none
  gpu_weights_mb : Option Int := none
  loras : List LoraSelection := []
  additional_options : Payload := []

namespace GenerationRequest

/-- models.py lines 70-88: prompt assembly and the base scalar payload. -/
def basePayload (r : GenerationRequest) : Payload :=
  let prompt_segments : List String :=
    (if r.prompt ≠ "" then [r.prompt] else []) ++
      (if r.loras ≠ [] then
        [" ".intercalate (r.loras.map LoraSelection.prompt_tag)]
      else [])
  [("prompt", .str ("\n".intercalate (prompt_segments.filter (fun s => s ≠ "")))),
   ("negative_prompt", .str r.negative_prompt),
   ("steps", .int r.steps),
   ("sampler_name", .str r.sampler),
   ("cfg_scale", .rat r.cfg_scale),
   ("width", .int r.width),
   ("height", .int r.height),
   ("batch_size", .int r.batch_size),
   ("n_iter", .int r.batch_count),
   ("seed", .int r.seed)]

/-- models.py lines 89-90: `if self.scheduler: payload["scheduler"] = ...`
(a `None` or empty string is falsy and writes nothing). -/
def addScheduler (r : GenerationRequest) (p : Payload) : Payload :=
  match r.scheduler with
  | some s => if s ≠ "" then dset p "scheduler" (.str s) else p
  | none => p

/-- models.py lines 91-92: `if self.subseed is not None: payload["subseed"] = ...`. -/
def addSubseed (r : GenerationRequest) (p : Payload) : Payload :=
  match r.subseed with
  | some n => dset p "subseed" (.int n)
  | none => p

/-- models.py lines 93-94: clip_skip into `override_settings`. -/
def addClipSkip (r : GenerationRequest) (p : Payload) : Payload :=
  match r.clip_skip with
  | some n => dsetIn p "override_settings" "CLIP_stop_at_last_layers" (.int n)
  | none => p

/-- models.py lines 95-97: checkpoint into `override_settings`. -/
def addCheckpoint (r : GenerationRequest) (p : Payload) : Payload :=
  match r.checkpoint with
  | some s =>
      if s ≠ "" then dsetIn p "override_settings" "sd_model_checkpoint" (.str s)
      else p
  | none => p

/-- models.py lines 98-99: vae into `override_settings`. -/
def addVae (r : GenerationRequest) (p : Payload) : Payload :=
  match r.vae with
  | some s => if s ≠ "" then dsetIn p "override_settings" "sd_vae" (.str s) else p
  | none => p

/-- models.py lines 100-101: text_encoder into `override_settings`. -/
def addTextEncoder (r : GenerationRequest) (p : Payload) : Payload :=
  match r.text_encoder with
  | some s =>
      if s ≠ "" then dsetIn p "override_settings" "sd_text_encoder" (.str s)
      else p
  | none => p

/-- models.py lines 102-103: gpu_weights_mb into `override_settings`. -/
def addGpuWeights (r : GenerationRequest) (p : Payload) : Payload :=
  match r.gpu_weights_mb with
  | some n => dsetIn p "override_settings" "gpu_weights_limit_mb" (.int n)
  | none => p

/-- models.py lines 104-107: the `alwayson_scripts` LoRA block. -/
def addLoraScripts (r : GenerationRequest) (p : Payload) : Payload :=
  if r.loras ≠ [] then
    dsetIn p "alwayson_scripts" "LoRA"
      (.obj [("args", .list (r.loras.map LoraSelection.to_script_args))])
  else p

/-- models.py line 108:
`payload.setdefault("override_settings", {}).update(self.additional_options)`. -/
def mergeAdditional (r : GenerationRequest) (p : Payload) : Payload :=
  dset p "override_settings" (.obj (dupdate (dgetObjD p "override_settings") r.additional_options))

/-- Method `GenerationRequest.to_payload` (models.py lines 69-109). -/
def to_payload (r : GenerationRequest) : Payload :=
  mergeAdditional r (addLoraScripts r (addGpuWeights r (addTextEncoder r
    (addVae r (addCheckpoint r (addClipSkip r (addSubseed r
      (addScheduler r (basePayload r)))))))))

end GenerationRequest

/-- Concrete model reference (used for claim C7). -/
def refA : LoraInfo := { name := "A" }

/-- Concrete request with only a scheduler set (used for claim C1). -/
def rSchedulerOnly : GenerationRequest := { scheduler := some "Karras" }

/-- Concrete request whose caller override collides with the vae field
(used for claim C10). -/
def rOverrideWins : GenerationRequest :=
  { vae := some "real_vae", additional_options := [("sd_vae", .str "forced_vae")] }

/-- Concrete request with every optional field set (used for claim C1). -/
def rPlacement : GenerationRequest :=
  { scheduler := some "Karras", subseed := some 7, clip_skip := some 2,
    checkpoint := some "ckpt", vae := some "v", text_encoder := some "te",
    gpu_weights_mb := some 4096 }

/-! ## String primitive models

Core `String.trim`, `String.toLower` and the `String` order are defined by
well-founded recursion over byte positions and do not reduce inside the
kernel, so the Python string primitives are modelled directly over the
character lists (exact for the ASCII data handled here). -/

/-- Model of Python `str.lower` on one character (ASCII). -/
def pyLowerChar (c : Char) : Char :=
  if 'A' ≤ c ∧ c ≤ 'Z' then Char.ofNat (c.toNat + 32) else c

/-- Model of Python `str.lower` (ASCII). -/
def pyLower (s : String) : String := String.mk (s.data.map pyLowerChar)

/-- Model of Python `str.strip()`: drop whitespace from both ends. -/
def pyStrip (s : String) : String :=
  String.mk (((s.data.dropWhile Char.isWhitespace).reverse.dropWhile
    Char.isWhitespace).reverse)

/-- Lexicographic order on character lists by code point: the order Python
uses to compare strings. -/
def lexLeb : List Char → List Char → Bool
  | [], _ => true
  | _ :: _, [] => false
  | a :: as, b :: bs =>
      if a.toNat < b.toNat then true
      else if b.toNat < a.toNat then false
      else lexLeb as bs

/-! ## src/sdforge_gui/tag_completion.py -/

namespace TagRepository

/-- The aggregation loop of `TagRepository.reload` (tag_completion.py lines
56-70), over the stream of raw tags yielded by `_load_file` across all
scanned files: trim, drop empties, deduplicate case-insensitively keeping
the first occurrence. -/
def dedupAgg (seen : List String) : List String → List String
  | [] => []
  | t :: ts =>
      let normalized := pyStrip t
      if normalized = "" then dedupAgg seen ts
      else if pyLower normalized ∈ seen then dedupAgg seen ts
      else normalized :: dedupAgg (pyLower normalized :: seen) ts

/-- The sort key order of `aggregated.sort(key=str.lower)` (line 72). -/
def lowerLe (a b : String) : Prop :=
  lexLeb (pyLower a).data (pyLower b).data = true

instance : DecidableRel lowerLe := fun a b =>
  inferInstanceAs (Decidable (lexLeb (pyLower a).data (pyLower b).data = true))

/-- Method `TagRepository.reload` (tag_completion.py lines 52-73), as a function of
the stream of raw tags produced by the file scan: deduplicate, then a
stable sort by the case-insensitive key. -/
def reload (raw : List String) : List String :=
  List.insertionSort lowerLe (dedupAgg [] raw)

/-- One line of `TagRepository._load_txt` (tag_completion.py lines 186-194):
strip, skip empties, truncate at the first comma
(`tag.split(",", 1)[0].strip()`). -/
def loadTxtLine (line : String) : Option String :=
  let tag := pyStrip line
  if tag = "" then none
  else if tag.data.contains ',' then
    some (pyStrip (String.mk (tag.data.takeWhile (fun c => c != ','))))
  else some tag

/-- Method `TagRepository._load_txt` over the lines of a text file. -/
def loadTxt (lines : List String) : List String := lines.filterMap loadTxtLine

/-- The first normalized (trimmed, non-empty) tag of the raw stream whose
lower-casing is `l`; used to state the first-occurrence-wins property. -/
def firstNormalized (raw : List String) (l : String) : Option String :=
  (raw.filterMap (fun t =>
    let n := pyStrip t
    if n ≠ "" ∧ pyLower n = l then some n else none)).head?

end TagRepository

/-! ## src/sdforge_gui/gui/widgets.py: completion context -/

namespace PromptTextEdit

/-- Separator test of `_current_completion_context` (widgets.py line 123):
`text[start - 1] not in {",", "\n", "\r"}`. -/
def isSep (c : Char) : Bool := c == ',' || c == '\n' || c == '\r'

/-- Backward scan of `_current_completion_context` (widgets.py lines
122-124): decrement `start` while the preceding character is not a
separator. -/
def scanStart (text : List Char) : Nat → Nat
  | 0 => 0
  | s + 1 => if isSep (text.getD s ',') then s + 1 else scanStart text s

/-- Method `PromptTextEdit._current_completion_context` (widgets.py lines 115-131),
over the plain-text buffer (a character list) and the cursor offset. -/
def current_completion_context (text : List Char) (cursor_pos : Nat) :
    Option (Nat × List Char) :=
  if text = [] ∨ cursor_pos = 0 then none
  else
    let start := scanStart text cursor_pos
    let fragment := (text.take cursor_pos).drop start
    let stripped_fragment := fragment.dropWhile Char.isWhitespace
    if stripped_fragment = [] then none
    else some (start + (fragment.length - stripped_fragment.length), stripped_fragment)

end PromptTextEdit

/-! ## src/sdforge_gui/gui/widgets.py: weight adjustment (Decimal pipeline) -/

/-- Exact decimal number, modelling Python `decimal.Decimal`: the value is
`mant / 10 ^ scale`. -/
structure Dec where
  mant : Int
  scale : Nat
deriving DecidableEq

/-- Rational value of a decimal. -/
def Dec.val (d : Dec) : ℚ := (d.mant : ℚ) / (10 : ℚ) ^ d.scale

/-- Exact `Decimal` addition: align scales, add mantissas. -/
def Dec.add (a b : Dec) : Dec :=
  let s := max a.scale b.scale
  ⟨a.mant * (10 : Int) ^ (s - a.scale) + b.mant * (10 : Int) ^ (s - b.scale), s⟩

/-- Strip trailing zero digits from a mantissa/scale pair, the effect of
`Decimal.normalize` on the values reached here (the positive-exponent form
that `normalize` can produce for integers has the same value, and the
formatting below is positional, i.e. value-based). -/
def stripZeros : Int → Nat → Dec
  | m, 0 => ⟨m, 0⟩
  | m, s + 1 => if m % 10 = 0 then stripZeros (m / 10) s else ⟨m, s + 1⟩

/-- Model of `Decimal.normalize`. -/
def Dec.normalize (d : Dec) : Dec := stripZeros d.mant d.scale

/-- Positional rendering `format(d, "f")` of a decimal with `scale ≥ 1`. -/
def decPosStr (d : Dec) : List Char :=
  let m := d.mant.natAbs
  let digits :=
    natDigits (m / 10 ^ d.scale) ++ '.' :: padDigits d.scale (natDigits (m % 10 ^ d.scale))
  if d.mant < 0 then '-' :: digits else digits

/-- Weight clamping of `_adjust_selected_tag_weight` (widgets.py lines
279-281): `new_weight = weight + delta`, floored at `Decimal("0")`.  The
Python comparison `new_weight < Decimal("0")` is a value comparison; it is
equivalent to the mantissa sign test used here (`Dec.val_neg_iff` below). -/
def clampWeight (weight delta : Dec) : Dec :=
  let new_weight := weight.add delta
  if new_weight.mant < 0 then ⟨0, 0⟩ else new_weight

/-- Weight formatting of `_adjust_selected_tag_weight` (widgets.py lines
283-289).  The Python test `normalized == normalized.to_integral()` holds
exactly when the normalized scale is zero. -/
def formatWeight (nw : Dec) : List Char :=
  let normalized := nw.normalize
  if normalized.scale = 0 then
    intDigits normalized.mant ++ ".0".data
  else
    let formatted := rstripDot (rstripZeros (decPosStr normalized.normalize))
    if formatted = [] then "0".data else formatted

/-- Replacement construction of `_adjust_selected_tag_weight` (widgets.py
lines 279-291): `f"({tag}:{formatted_weight})"`. -/
def replacementText (tag : String) (weight delta : Dec) : String :=
  "(" ++ tag ++ ":" ++ String.mk (formatWeight (clampWeight weight delta)) ++ ")"

/-- Final fallback branch of `_adjust_selected_tag_weight` (widgets.py lines
273-277): a trimmed selection that matched no grammar and is not inside a
parenthesized group is treated as a bare tag with weight `Decimal("1.0")`,
unless it contains a comma. -/
def bareTagAdjust (trimmed : String) (delta : Dec) : Option String :=
  if trimmed.data.contains ',' then none
  else some (replacementText trimmed ⟨10, 1⟩ delta)

/-- Unsigned part of `Decimal(str)` for strings shaped like the regex
weight group `\d+(\.\d+)?`. -/
def decOfCharsPos (cs : List Char) : Option Dec :=
  let intPart := cs.takeWhile Char.isDigit
  let rest := cs.dropWhile Char.isDigit
  if intPart = [] then none
  else if rest = [] then some ⟨(digitsToNat intPart : Int), 0⟩
  else if rest.headD ' ' = '.' then
    let fracPart := rest.drop 1
    if fracPart ≠ [] ∧ fracPart.all Char.isDigit then
      some ⟨(digitsToNat intPart * 10 ^ fracPart.length + digitsToNat fracPart : Int),
        fracPart.length⟩
    else none
  else none

/-- Model of `Decimal(str)` on strings shaped like the regex weight group
`-?\d+(\.\d+)?` (widgets.py lines 32-38). -/
def decOfChars (cs : List Char) : Option Dec :=
  if cs.headD ' ' = '-' then
    (decOfCharsPos (cs.drop 1)).map (fun d => ⟨-d.mant, d.scale⟩)
  else decOfCharsPos cs

/-! ## src/sdforge_gui/gui/widgets.py: LoRA selection list -/

namespace LoraSelectionList

/-- Method `LoraSelectionList.add_or_update` (widgets.py lines 366-386), on the
ordered list of (info, weight) rows: an existing row with the same name has
its weight updated in place (the stored info is kept), otherwise a new row
is appended at the end. -/
def add_or_update (items : List (LoraInfo × ℚ)) (info : LoraInfo) (weight : ℚ) :
    List (LoraInfo × ℚ) :=
  if items.any (fun e => e.1.name == info.name) then
    items.map (fun e => if e.1.name == info.name then (e.1, weight) else e)
  else items ++ [(info, weight)]

/-- Row names, in order. -/
def names (items : List (LoraInfo × ℚ)) : List String :=
  items.map (fun e => e.1.name)

/-- Weight of the row with the given name, if any. -/
def weightOf (items : List (LoraInfo × ℚ)) (name : String) : Option ℚ :=
  (items.find? (fun e => e.1.name == name)).map (fun e => e.2)

/-- Apply a sequence of `add_or_update` calls starting from the empty list. -/
def applyAll (ops : List (LoraInfo × ℚ)) : List (LoraInfo × ℚ) :=
  ops.foldl (fun s op => add_or_update s op.1 op.2) []

end LoraSelectionList

/-! ## JSON values and a model of `json.loads` (used by api_client.py) -/

/-- JSON values. -/
inductive JVal where
  | null
  | bool (b : Bool)
  | num (q : ℚ)
  | str (s : String)
  | arr (xs : List JVal)
  | obj (fields : List (String × JVal))

/-- Modelled from the Python standard library: JSON insignificant
whitespace skipping. -/
def jsonWs (cs : List Char) : List Char :=
  cs.dropWhile (fun c => c == ' ' || c == '\t' || c == '\n' || c == '\r')

/-- Value of a hexadecimal digit. -/
def hexVal (c : Char) : Option Nat :=
  if '0' ≤ c ∧ c ≤ '9' then some (c.toNat - 48)
  else if 'a' ≤ c ∧ c ≤ 'f' then some (c.toNat - 87)
  else if 'A' ≤ c ∧ c ≤ 'F' then some (c.toNat - 55)
  else none

/-- Modelled from the Python standard library: JSON string body parsing
(after the opening quote), returning the decoded content and the remainder
after the closing quote. -/
def parseJString : List Char → Option (List Char × List Char)
  | [] => none
  | '"' :: rest => some ([], rest)
  | '\\' :: rest =>
      match rest with
      | '"' :: rs => (parseJString rs).map (fun p => ('"' :: p.1, p.2))
      | '\\' :: rs => (parseJString rs).map (fun p => ('\\' :: p.1, p.2))
      | '/' :: rs => (parseJString rs).map (fun p => ('/' :: p.1, p.2))
      | 'b' :: rs => (parseJString rs).map (fun p => ('\x08' :: p.1, p.2))
      | 'f' :: rs => (parseJString rs).map (fun p => ('\x0c' :: p.1, p.2))
      | 'n' :: rs => (parseJString rs).map (fun p => ('\n' :: p.1, p.2))
      | 'r' :: rs => (parseJString rs).map (fun p => ('\r' :: p.1, p.2))
      | 't' :: rs => (parseJString rs).map (fun p => ('\t' :: p.1, p.2))
      | 'u' :: a :: b :: c :: d :: rs =>
          match hexVal a, hexVal b, hexVal c, hexVal d with
          | some ha, some hb, some hc, some hd =>
              (parseJString rs).map
                (fun p => (Char.ofNat (((ha * 16 + hb) * 16 + hc) * 16 + hd) :: p.1, p.2))
          | _, _, _, _ => none
      | _ => none
  | c :: rest => (parseJString rest).map (fun p => (c :: p.1, p.2))

/-- Parse a nonempty run of decimal digits. -/
def parseNatPart (cs : List Char) : Option (List Char × List Char) :=
  let ds := cs.takeWhile Char.isDigit
  if ds = [] then none else some (ds, cs.dropWhile Char.isDigit)

/-- Optional JSON exponent part. -/
def parseJExp (cs : List Char) : Option (Int × List Char) :=
  match cs with
  | 'e' :: r | 'E' :: r =>
      match r with
      | '+' :: r2 => (parseNatPart r2).map (fun p => ((digitsToNat p.1 : Int), p.2))
      | '-' :: r2 => (parseNatPart r2).map (fun p => (-(digitsToNat p.1 : Int), p.2))
      | r2 => (parseNatPart r2).map (fun p => ((digitsToNat p.1 : Int), p.2))
  | _ => some (0, cs)

/-- Assemble a JSON number value `±(ip + fv / 10 ^ fn) * 10 ^ ev`, using
only integer arithmetic and `mkRat` so that it evaluates in the kernel. -/
def mkJNum (neg : Bool) (ipv fv : Nat) (fn : Nat) (ev : Int) : ℚ :=
  let mant : Int := ipv * (10 : Int) ^ fn + fv
  let mant : Int := if neg then -mant else mant
  let scale : Int := (fn : Int) - ev
  if 0 ≤ scale then mkRat mant ((10 : Nat) ^ scale.toNat)
  else mkRat (mant * (10 : Int) ^ (-scale).toNat) 1

/-- Modelled from the Python standard library: JSON number parsing
(sign, integer part without superfluous leading zeros, optional fraction,
optional exponent). -/
def parseJNumber (cs : List Char) : Option (ℚ × List Char) :=
  let neg : Bool := match cs with | '-' :: _ => true | _ => false
  let cs1 := match cs with | '-' :: r => r | _ => cs
  match parseNatPart cs1 with
  | none => none
  | some (ip, cs2) =>
      if 1 < ip.length ∧ ip.headD '0' = '0' then none
      else
        match cs2 with
        | '.' :: r =>
            match parseNatPart r with
            | none => none
            | some (fp, cs3) =>
                (parseJExp cs3).map
                  (fun p => (mkJNum neg (digitsToNat ip) (digitsToNat fp) fp.length p.1, p.2))
        | _ =>
            (parseJExp cs2).map
              (fun p => (mkJNum neg (digitsToNat ip) 0 0 p.1, p.2))

/-- Parsing state: a plain value, the members of an object being read, or
the items of an array being read. -/
inductive JMode where
  | val
  | members (acc : List (String × JVal))
  | items (acc : List JVal)

/-- Modelled from the Python standard library: the recursive JSON value
parser behind `json.loads`, fuel-driven so that it reduces definitionally. -/
def parseJ : Nat → JMode → List Char → Option (JVal × List Char)
  | 0, _, _ => none
  | fuel + 1, .val, cs =>
      match jsonWs cs with
      | 'n' :: 'u' :: 'l' :: 'l' :: rest => some (.null, rest)
      | 't' :: 'r' :: 'u' :: 'e' :: rest => some (.bool true, rest)
      | 'f' :: 'a' :: 'l' :: 's' :: 'e' :: rest => some (.bool false, rest)
      | '"' :: rest => (parseJString rest).map (fun p => (.str (String.mk p.1), p.2))
      | '\x7b' :: rest =>
          (match jsonWs rest with
           | '\x7d' :: r2 => some (.obj [], r2)
           | r2 => parseJ fuel (.members []) r2)
      | '[' :: rest =>
          (match jsonWs rest with
           | ']' :: r2 => some (.arr [], r2)
           | r2 => parseJ fuel (.items []) r2)
      | rest => (parseJNumber rest).map (fun p => (.num p.1, p.2))
  | fuel + 1, .members acc, cs =>
      match jsonWs cs with
      | '"' :: rest =>
          (match parseJString rest with
           | none => none
           | some (key, r1) =>
              match jsonWs r1 with
              | ':' :: r2 =>
                  (match parseJ fuel .val r2 with
                   | none => none
                   | some (v, r3) =>
                      match jsonWs r3 with
                      | ',' :: r4 => parseJ fuel (.members (acc ++ [(String.mk key, v)])) r4
                      | '\x7d' :: r4 => some (.obj (acc ++ [(String.mk key, v)]), r4)
                      | _ => none)
              | _ => none)
      | _ => none
  | fuel + 1, .items acc, cs =>
      match parseJ fuel .val cs with
      | none => none
      | some (v, r1) =>
          match jsonWs r1 with
          | ',' :: r2 => parseJ fuel (.items (acc ++ [v])) r2
          | ']' :: r2 => some (.arr (acc ++ [v]), r2)
          | _ => none

/-- Modelled from the Python standard library: `json.loads` — parse one
JSON value and require only whitespace to remain. -/
def json_loads (s : String) : Option JVal :=
  match parseJ (2 * s.length + 2) .val s.data with
  | some (v, rest) => if jsonWs rest = [] then some v else none
  | none => none

/-! ## src/sdforge_gui/api_client.py -/

namespace StableDiffusionClient

/-- Info-field normalization in `StableDiffusionClient.text_to_image`
(api_client.py lines 179-186), for an info field that arrived as a string:
decode it as JSON, fall back to `{"raw": s}` when undecodable, and replace
any non-object decode result by the empty object. -/
def decodeInfoString (s : String) : List (String × JVal) :=
  match json_loads s with
  | some v =>
      match v with
      | .obj o => o
      | _ => []
  | none => [("raw", .str s)]

/-- Model of Python `value.rstrip("/")`. -/
def rstripSlashes (cs : List Char) : List Char :=
  (cs.reverse.dropWhile (fun c => c == '/')).reverse

/-- The `base_url` property setter (api_client.py lines 44-48): an empty
value raises `ValueError("Base URL cannot be empty")`, otherwise trailing
slashes are stripped and the value stored. -/
def set_base_url (value : String) : Except String String :=
  if value = "" then .error "Base URL cannot be empty"
  else .ok (String.mk (rstripSlashes value.data))

end StableDiffusionClient

instance decEqExceptStringString : DecidableEq (Except String String) := fun a b =>
  match a, b with
  | .error x, .error y =>
      if h : x = y then isTrue (by rw [h]) else isFalse (by intro hh; cases hh; exact h rfl)
  | .error _, .ok _ => isFalse (by intro hh; cases hh)
  | .ok _, .error _ => isFalse (by intro hh; cases hh)
  | .ok x, .ok y =>
      if h : x = y then isTrue (by rw [h]) else isFalse (by intro hh; cases hh; exact h rfl)

/-- The override-settings sub-object of a payload. -/
def govr (p : Payload) : Payload := dgetObjD p "override_settings"

/-- Payload value contributed by a truthiness-tested optional string field. -/
def optStrVal : Option String → Option PVal
  | some s => if s ≠ "" then some (.str s) else none
  | none => none

/-- Payload value contributed by a `is not None`-tested optional int field. -/
def optIntVal : Option Int → Option PVal
  | some n => some (.int n)
  | none => none

/-- Fixed key names used inside the override-settings sub-object. -/
def overrideKeys : List String :=
  ["CLIP_stop_at_last_layers", "sd_model_checkpoint", "sd_vae",
   "sd_text_encoder", "gpu_weights_limit_mb"]

/-! ## Association-list lemmas for the payload dictionary -/

theorem dget_dset_self (d : Payload) (k : String) (v : PVal) :
    dget (dset d k v) k = some v := by
  induction d with
  | nil => simp [dget, dset]
  | cons hd tl ih =>
      by_cases h : hd.1 = k
      · simp [dset, dget, h]
      · simpa [dset, dget, h] using ih

theorem dget_dset_ne (d : Payload) {key k : String} (v : PVal) (h : key ≠ k) :
    dget (dset d k v) key = dget d key := by
  have h' : ¬k = key := fun hh => h hh.symm
  induction d with
  | nil => simp [dget, dset, h']
  | cons hd tl ih =>
      obtain ⟨a, b⟩ := hd
      by_cases hk : a = k
      · subst hk
        simp [dset, dget, h']
      · by_cases hkey : a = key <;> simp [dset, dget, hk, hkey, ih, h]

theorem dgetObjD_dset_ne (d : Payload) {key k : String} (v : PVal) (h : key ≠ k) :
    dgetObjD (dset d k v) key = dgetObjD d key := by
  unfold dgetObjD
  rw [dget_dset_ne d v h]

theorem dget_dsetIn_ne (d : Payload) {t key : String} (sub : String) (v : PVal)
    (h : t ≠ key) : dget (dsetIn d key sub v) t = dget d t := by
  unfold dsetIn
  exact dget_dset_ne d _ h

theorem dgetObjD_dsetIn_self (d : Payload) (key sub : String) (v : PVal) :
    dgetObjD (dsetIn d key sub v) key = dset (dgetObjD d key) sub v := by
  unfold dsetIn dgetObjD
  rw [dget_dset_self]

theorem dgetObjD_dsetIn_ne (d : Payload) {t key : String} (sub : String) (v : PVal)
    (h : t ≠ key) : dgetObjD (dsetIn d key sub v) t = dgetObjD d t := by
  unfold dsetIn
  exact dgetObjD_dset_ne d _ h

theorem dget_dupdate_of_not_mem (d : Payload) {extra : Payload} {key : String}
    (h : key ∉ extra.map Prod.fst) : dget (dupdate d extra) key = dget d key := by
  induction extra generalizing d with
  | nil => rfl
  | cons hd tl ih =>
      simp only [List.map_cons, List.mem_cons, not_or] at h
      show dget (dupdate (dset d hd.1 hd.2) tl) key = dget d key
      rw [ih (dset d hd.1 hd.2) h.2, dget_dset_ne d _ h.1]

theorem dget_dupdate_of_mem (d : Payload) {extra : Payload} {key : String}
    (hnd : (extra.map Prod.fst).Nodup) (h : key ∈ extra.map Prod.fst) :
    dget (dupdate d extra) key = dget extra key := by
  induction extra generalizing d with
  | nil => cases h
  | cons hd tl ih =>
      obtain ⟨a, b⟩ := hd
      simp only [List.map_cons, List.nodup_cons] at hnd
      show dget (dupdate (dset d a b) tl) key = dget ((a, b) :: tl) key
      by_cases hk : key = a
      · subst hk
        rw [dget_dupdate_of_not_mem _ hnd.1, dget_dset_self]
        simp [dget]
      · simp only [List.map_cons, List.mem_cons, hk, false_or] at h
        rw [ih _ hnd.2 h]
        have h2 : ¬a = key := fun hh => hk hh.symm
        simp [dget, h2]

/-! ## Per-step payload lemmas (claims C1 and C10) -/

namespace GenerationRequest

variable (r : GenerationRequest) (p : Payload)

theorem dget_addScheduler_ne {k : String} (h : k ≠ "scheduler") :
    dget (addScheduler r p) k = dget p k := by
  unfold addScheduler
  cases hs : r.scheduler with
  | none => rfl
  | some s => by_cases he : s = "" <;> simp [he, dget_dset_ne p _ h]

theorem dget_addSubseed_ne {k : String} (h : k ≠ "subseed") :
    dget (addSubseed r p) k = dget p k := by
  unfold addSubseed
  cases hs : r.subseed with
  | none => rfl
  | some n => simp [dget_dset_ne p _ h]

theorem dget_addClipSkip_ne {k : String} (h : k ≠ "override_settings") :
    dget (addClipSkip r p) k = dget p k := by
  unfold addClipSkip
  cases hs : r.clip_skip with
  | none => rfl
  | some n => simp [dget_dsetIn_ne p _ _ h]

theorem dget_addCheckpoint_ne {k : String} (h : k ≠ "override_settings") :
    dget (addCheckpoint r p) k = dget p k := by
  unfold addCheckpoint
  cases hs : r.checkpoint with
  | none => rfl
  | some s => by_cases he : s = "" <;> simp [he, dget_dsetIn_ne p _ _ h]

theorem dget_addVae_ne {k : String} (h : k ≠ "override_settings") :
    dget (addVae r p) k = dget p k := by
  unfold addVae
  cases hs : r.vae with
  | none => rfl
  | some s => by_cases he : s = "" <;> simp [he, dget_dsetIn_ne p _ _ h]

theorem dget_addTextEncoder_ne {k : String} (h : k ≠ "override_settings") :
    dget (addTextEncoder r p) k = dget p k := by
  unfold addTextEncoder
  cases hs : r.text_encoder with
  | none => rfl
  | some s => by_cases he : s = "" <;> simp [he, dget_dsetIn_ne p _ _ h]

theorem dget_addGpuWeights_ne {k : String} (h : k ≠ "override_settings") :
    dget (addGpuWeights r p) k = dget p k := by
  unfold addGpuWeights
  cases hs : r.gpu_weights_mb with
  | none => rfl
  | some n => simp [dget_dsetIn_ne p _ _ h]

theorem dget_addLoraScripts_ne {k : String} (h : k ≠ "alwayson_scripts") :
    dget (addLoraScripts r p) k = dget p k := by
  unfold addLoraScripts
  by_cases hl : r.loras = [] <;> simp [hl, dget_dsetIn_ne p _ _ h]

theorem dget_mergeAdditional_ne {k : String} (h : k ≠ "override_settings") :
    dget (mergeAdditional r p) k = dget p k := by
  unfold mergeAdditional
  exact dget_dset_ne p _ h

theorem govr_addScheduler : govr (addScheduler r p) = govr p := by
  unfold addScheduler
  cases hs : r.scheduler with
  | none => rfl
  | some s =>
      by_cases he : s = "" <;>
        simp [he, govr, dgetObjD_dset_ne p _ (by decide : "override_settings" ≠ "scheduler")]

theorem govr_addSubseed : govr (addSubseed r p) = govr p := by
  unfold addSubseed
  cases hs : r.subseed with
  | none => rfl
  | some n =>
      simp [govr, dgetObjD_dset_ne p _ (by decide : "override_settings" ≠ "subseed")]

theorem govr_addLoraScripts : govr (addLoraScripts r p) = govr p := by
  unfold addLoraScripts
  by_cases hl : r.loras = [] <;>
    simp [hl, govr, dgetObjD_dsetIn_ne p _ _ (by decide : "override_settings" ≠ "alwayson_scripts")]

theorem govr_mergeAdditional :
    govr (mergeAdditional r p) = dupdate (govr p) r.additional_options := by
  unfold mergeAdditional govr dgetObjD
  rw [dget_dset_self]

theorem dget_govr_addClipSkip_ne {k : String} (h : k ≠ "CLIP_stop_at_last_layers") :
    dget (govr (addClipSkip r p)) k = dget (govr p) k := by
  unfold addClipSkip
  cases hs : r.clip_skip with
  | none => rfl
  | some n => simp [govr, dgetObjD_dsetIn_self, dget_dset_ne _ _ h]

theorem dget_govr_addCheckpoint_ne {k : String} (h : k ≠ "sd_model_checkpoint") :
    dget (govr (addCheckpoint r p)) k = dget (govr p) k := by
  unfold addCheckpoint
  cases hs : r.checkpoint with
  | none => rfl
  | some s =>
      by_cases he : s = "" <;> simp [he, govr, dgetObjD_dsetIn_self, dget_dset_ne _ _ h]

theorem dget_govr_addVae_ne {k : String} (h : k ≠ "sd_vae") :
    dget (govr (addVae r p)) k = dget (govr p) k := by
  unfold addVae
  cases hs : r.vae with
  | none => rfl
  | some s =>
      by_cases he : s = "" <;> simp [he, govr, dgetObjD_dsetIn_self, dget_dset_ne _ _ h]

theorem dget_govr_addTextEncoder_ne {k : String} (h : k ≠ "sd_text_encoder") :
    dget (govr (addTextEncoder r p)) k = dget (govr p) k := by
  unfold addTextEncoder
  cases hs : r.text_encoder with
  | none => rfl
  | some s =>
      by_cases he : s = "" <;> simp [he, govr, dgetObjD_dsetIn_self, dget_dset_ne _ _ h]

theorem dget_govr_addGpuWeights_ne {k : String} (h : k ≠ "gpu_weights_limit_mb") :
    dget (govr (addGpuWeights r p)) k = dget (govr p) k := by
  unfold addGpuWeights
  cases hs : r.gpu_weights_mb with
  | none => rfl
  | some n => simp [govr, dgetObjD_dsetIn_self, dget_dset_ne _ _ h]

theorem dget_addScheduler_self (h : dget p "scheduler" = none) :
    dget (addScheduler r p) "scheduler" = optStrVal r.scheduler := by
  unfold addScheduler
  cases hs : r.scheduler with
  | none => simpa [optStrVal] using h
  | some s => by_cases he : s = "" <;> simp [he, optStrVal, dget_dset_self, h]

theorem dget_addSubseed_self (h : dget p "subseed" = none) :
    dget (addSubseed r p) "subseed" = optIntVal r.subseed := by
  unfold addSubseed
  cases hs : r.subseed with
  | none => simpa [optIntVal] using h
  | some n => simp [optIntVal, dget_dset_self]

theorem dget_govr_addClipSkip_self (h : dget (govr p) "CLIP_stop_at_last_layers" = none) :
    dget (govr (addClipSkip r p)) "CLIP_stop_at_last_layers" = optIntVal r.clip_skip := by
  unfold addClipSkip
  cases hs : r.clip_skip with
  | none => simpa [optIntVal] using h
  | some n => simp [optIntVal, govr, dgetObjD_dsetIn_self, dget_dset_self]

theorem dget_govr_addCheckpoint_self (h : dget (govr p) "sd_model_checkpoint" = none) :
    dget (govr (addCheckpoint r p)) "sd_model_checkpoint" = optStrVal r.checkpoint := by
  unfold addCheckpoint
  simp only [govr] at h
  cases hs : r.checkpoint with
  | none => simpa [optStrVal, govr] using h
  | some s =>
      by_cases he : s = "" <;>
        simp [he, optStrVal, govr, dgetObjD_dsetIn_self, dget_dset_self, h]

theorem dget_govr_addVae_self (h : dget (govr p) "sd_vae" = none) :
    dget (govr (addVae r p)) "sd_vae" = optStrVal r.vae := by
  unfold addVae
  simp only [govr] at h
  cases hs : r.vae with
  | none => simpa [optStrVal, govr] using h
  | some s =>
      by_cases he : s = "" <;>
        simp [he, optStrVal, govr, dgetObjD_dsetIn_self, dget_dset_self, h]

theorem dget_govr_addTextEncoder_self (h : dget (govr p) "sd_text_encoder" = none) :
    dget (govr (addTextEncoder r p)) "sd_text_encoder" = optStrVal r.text_encoder := by
  unfold addTextEncoder
  simp only [govr] at h
  cases hs : r.text_encoder with
  | none => simpa [optStrVal, govr] using h
  | some s =>
      by_cases he : s = "" <;>
        simp [he, optStrVal, govr, dgetObjD_dsetIn_self, dget_dset_self, h]

theorem dget_govr_addGpuWeights_self (h : dget (govr p) "gpu_weights_limit_mb" = none) :
    dget (govr (addGpuWeights r p)) "gpu_weights_limit_mb" = optIntVal r.gpu_weights_mb := by
  unfold addGpuWeights
  cases hs : r.gpu_weights_mb with
  | none => simpa [optIntVal] using h
  | some n => simp [optIntVal, govr, dgetObjD_dsetIn_self, dget_dset_self]

theorem govr_basePayload : govr (basePayload r) = [] := by
  simp [govr, dgetObjD, basePayload, dget]

end GenerationRequest

/-! ## Claim C1 -/

namespace GenerationRequest

/-- Claim C1, counterexample: the claim states that a present `scheduler`
appears under the nested override-settings sub-structure, but on the
request whose only optional field is `scheduler = "Karras"` the built
payload carries `scheduler` as a top-level key and its override-settings
sub-object is empty. -/
theorem scheduler_not_under_override_settings :
    rSchedulerOnly.scheduler = some "Karras" ∧
    dget rSchedulerOnly.to_payload "scheduler" = some (.str "Karras") ∧
    govr rSchedulerOnly.to_payload = [] := by
  refine ⟨rfl, by rfl, by rfl⟩

/-- Claim C1, amended: for every `GenerationRequest` whose caller override
map does not itself use the fixed key names, a present (truthy) `checkpoint`,
`vae`, `text_encoder`, `gpu_weight_limit` or `clip_skip` appears under the
override-settings sub-structure under its fixed key name, while a present
`scheduler` or `subseed` appears as a top-level payload key; an absent field
produces no corresponding key anywhere in the payload. -/
theorem optional_field_payload_placement (r : GenerationRequest)
    (h : ∀ k ∈ overrideKeys ++ ["scheduler", "subseed"],
      k ∉ r.additional_options.map Prod.fst) :
    dget r.to_payload "scheduler" = optStrVal r.scheduler ∧
    dget r.to_payload "subseed" = optIntVal r.subseed ∧
    dget (govr r.to_payload) "CLIP_stop_at_last_layers" = optIntVal r.clip_skip ∧
    dget (govr r.to_payload) "sd_model_checkpoint" = optStrVal r.checkpoint ∧
    dget (govr r.to_payload) "sd_vae" = optStrVal r.vae ∧
    dget (govr r.to_payload) "sd_text_encoder" = optStrVal r.text_encoder ∧
    dget (govr r.to_payload) "gpu_weights_limit_mb" = optIntVal r.gpu_weights_mb ∧
    (∀ k ∈ overrideKeys, dget r.to_payload k = none) ∧
    dget (govr r.to_payload) "scheduler" = none ∧
    dget (govr r.to_payload) "subseed" = none := by
  have htop : ∀ k : String, k ≠ "scheduler" → k ≠ "subseed" → k ≠ "override_settings" →
      k ≠ "alwayson_scripts" → dget r.to_payload k = dget (basePayload r) k := by
    intro k h1 h2 h3 h4
    unfold to_payload
    rw [dget_mergeAdditional_ne r _ h3, dget_addLoraScripts_ne r _ h4,
      dget_addGpuWeights_ne r _ h3, dget_addTextEncoder_ne r _ h3,
      dget_addVae_ne r _ h3, dget_addCheckpoint_ne r _ h3, dget_addClipSkip_ne r _ h3,
      dget_addSubseed_ne r _ h2, dget_addScheduler_ne r _ h1]
  have hgovr : govr r.to_payload =
      dupdate (govr (addGpuWeights r (addTextEncoder r (addVae r (addCheckpoint r
        (addClipSkip r (addSubseed r (addScheduler r (basePayload r))))))))
      ) r.additional_options := by
    unfold to_payload
    rw [govr_mergeAdditional, govr_addLoraScripts]
  have hdrop : ∀ k ∈ overrideKeys ++ ["scheduler", "subseed"],
      dget (govr r.to_payload) k =
      dget (govr (addGpuWeights r (addTextEncoder r (addVae r (addCheckpoint r
        (addClipSkip r (addSubseed r (addScheduler r (basePayload r))))))))) k := by
    intro k hk
    rw [hgovr, dget_dupdate_of_not_mem _ (h k hk)]
  have hbase : ∀ k, dget (govr (addSubseed r (addScheduler r (basePayload r)))) k = none := by
    intro k
    rw [govr_addSubseed, govr_addScheduler, govr_basePayload]
    rfl
  refine ⟨?_, ?_, ?_, ?_, ?_, ?_, ?_, ?_, ?_, ?_⟩
  · unfold to_payload
    simp [dget_mergeAdditional_ne, dget_addLoraScripts_ne, dget_addGpuWeights_ne,
      dget_addTextEncoder_ne, dget_addVae_ne, dget_addCheckpoint_ne, dget_addClipSkip_ne,
      dget_addSubseed_ne]
    exact dget_addScheduler_self r _ (by simp [basePayload, dget])
  · unfold to_payload
    simp [dget_mergeAdditional_ne, dget_addLoraScripts_ne, dget_addGpuWeights_ne,
      dget_addTextEncoder_ne, dget_addVae_ne, dget_addCheckpoint_ne, dget_addClipSkip_ne]
    exact dget_addSubseed_self r _
      (by rw [dget_addScheduler_ne r _ (by decide)]; simp [basePayload, dget])
  · rw [hdrop "CLIP_stop_at_last_layers" (by simp [overrideKeys])]
    simp [dget_govr_addGpuWeights_ne, dget_govr_addTextEncoder_ne,
      dget_govr_addVae_ne, dget_govr_addCheckpoint_ne]
    exact dget_govr_addClipSkip_self r _ (hbase _)
  · rw [hdrop "sd_model_checkpoint" (by simp [overrideKeys])]
    simp [dget_govr_addGpuWeights_ne, dget_govr_addTextEncoder_ne,
      dget_govr_addVae_ne]
    exact dget_govr_addCheckpoint_self r _
      (by simp [dget_govr_addClipSkip_ne]; exact hbase _)
  · rw [hdrop "sd_vae" (by simp [overrideKeys])]
    simp [dget_govr_addGpuWeights_ne, dget_govr_addTextEncoder_ne]
    exact dget_govr_addVae_self r _
      (by simp [dget_govr_addCheckpoint_ne, dget_govr_addClipSkip_ne]; exact hbase _)
  · rw [hdrop "sd_text_encoder" (by simp [overrideKeys])]
    simp [dget_govr_addGpuWeights_ne]
    exact dget_govr_addTextEncoder_self r _
      (by simp [dget_govr_addVae_ne, dget_govr_addCheckpoint_ne,
        dget_govr_addClipSkip_ne]; exact hbase _)
  · rw [hdrop "gpu_weights_limit_mb" (by simp [overrideKeys])]
    exact dget_govr_addGpuWeights_self r _
      (by simp [dget_govr_addTextEncoder_ne, dget_govr_addVae_ne,
        dget_govr_addCheckpoint_ne, dget_govr_addClipSkip_ne]; exact hbase _)
  · intro k hk
    fin_cases hk <;>
      · rw [htop _ (by decide) (by decide) (by decide) (by decide)]
        simp [basePayload, dget]
  · rw [hdrop "scheduler" (by simp [overrideKeys])]
    simp [dget_govr_addGpuWeights_ne, dget_govr_addTextEncoder_ne,
      dget_govr_addVae_ne, dget_govr_addCheckpoint_ne, dget_govr_addClipSkip_ne]
    exact hbase _
  · rw [hdrop "subseed" (by simp [overrideKeys])]
    simp [dget_govr_addGpuWeights_ne, dget_govr_addTextEncoder_ne,
      dget_govr_addVae_ne, dget_govr_addCheckpoint_ne, dget_govr_addClipSkip_ne]
    exact hbase _

/-- Claim C1, witness: the amended placement theorem evaluated on the
concrete request with every optional field set and no caller overrides. -/
theorem optional_field_payload_placement_witness :
    dget rPlacement.to_payload "scheduler" = some (.str "Karras") ∧
    dget rPlacement.to_payload "subseed" = some (.int 7) ∧
    dget (govr rPlacement.to_payload) "sd_vae" = some (.str "v") ∧
    dget (govr rPlacement.to_payload) "gpu_weights_limit_mb" = some (.int 4096) ∧
    dget (govr rPlacement.to_payload) "scheduler" = none := by
  have h := optional_field_payload_placement rPlacement (by simp [rPlacement, overrideKeys])
  exact ⟨h.1, h.2.1, h.2.2.2.2.1, h.2.2.2.2.2.2.1, h.2.2.2.2.2.2.2.2.1⟩

end GenerationRequest

/-! ## Claim C10 -/

namespace GenerationRequest

/-- Claim C10: every payload built by `to_payload` carries the key
`override_settings` mapped to a (possibly empty) object, and the
caller-supplied override map is merged into that object last, so its
entries win over the individually mapped optional fields on key
collision. -/
theorem override_settings_present_and_merged_last (r : GenerationRequest)
    (hnd : (r.additional_options.map Prod.fst).Nodup) :
    (∃ o, dget r.to_payload "override_settings" = some (.obj o)) ∧
    (∀ k, k ∈ r.additional_options.map Prod.fst →
      dget (govr r.to_payload) k = dget r.additional_options k) := by
  constructor
  · unfold to_payload mergeAdditional
    exact ⟨_, dget_dset_self _ _ _⟩
  · intro k hk
    have hgovr : govr r.to_payload =
        dupdate
          (govr (addLoraScripts r (addGpuWeights r (addTextEncoder r (addVae r
            (addCheckpoint r (addClipSkip r (addSubseed r (addScheduler r
              (basePayload r))))))))))
          r.additional_options := by
      unfold to_payload
      rw [govr_mergeAdditional]
    rw [hgovr, dget_dupdate_of_mem _ hnd hk]

/-- Claim C10, witness: on the concrete request `rOverrideWins`, whose
caller override map re-binds `sd_vae`, the built payload has an
override-settings object and the caller-supplied binding wins over the
individually mapped `vae` field. -/
theorem override_settings_present_and_merged_last_witness :
    dget rOverrideWins.to_payload "override_settings" =
      some (.obj [("sd_vae", .str "forced_vae")]) ∧
    dget (govr rOverrideWins.to_payload) "sd_vae" = some (.str "forced_vae") := by
  refine ⟨by rfl, ?_⟩
  have h := (override_settings_present_and_merged_last rOverrideWins (by simp [rOverrideWins])).2
    "sd_vae" (by simp [rOverrideWins])
  rw [h]
  rfl

end GenerationRequest

/-! ## Claim C7 -/

namespace LoraSelectionList

theorem names_map_update (items : List (LoraInfo × ℚ)) (info : LoraInfo) (w : ℚ) :
    names (items.map (fun e => if e.1.name == info.name then (e.1, w) else e)) =
    names items := by
  unfold names
  rw [List.map_map]
  apply List.map_congr_left
  intro e _
  by_cases he : e.1.name == info.name <;> simp [Function.comp, he]

theorem weightOf_map_update (items : List (LoraInfo × ℚ)) (info : LoraInfo) (w : ℚ)
    (h : items.any (fun e => e.1.name == info.name) = true) :
    weightOf (items.map (fun e => if e.1.name == info.name then (e.1, w) else e))
      info.name = some w := by
  induction items with
  | nil => simp at h
  | cons e rest ih =>
      by_cases he : e.1.name == info.name
      · simp [weightOf, List.find?, he]
      · simp only [List.any_cons, he, Bool.false_or] at h
        simpa [weightOf, List.find?, he] using ih h

theorem names_add_or_update_present (items : List (LoraInfo × ℚ)) (info : LoraInfo)
    (w : ℚ) (h : items.any (fun e => e.1.name == info.name) = true) :
    names (add_or_update items info w) = names items := by
  unfold add_or_update
  rw [if_pos h]
  exact names_map_update items info w

theorem add_or_update_absent (items : List (LoraInfo × ℚ)) (info : LoraInfo) (w : ℚ)
    (h : items.any (fun e => e.1.name == info.name) = false) :
    add_or_update items info w = items ++ [(info, w)] := by
  unfold add_or_update
  rw [if_neg (by simp [h])]

theorem names_nodup_add_or_update (items : List (LoraInfo × ℚ)) (info : LoraInfo)
    (w : ℚ) (h : (names items).Nodup) :
    (names (add_or_update items info w)).Nodup := by
  cases hc : items.any (fun e => e.1.name == info.name) with
  | true => rw [names_add_or_update_present items info w hc]; exact h
  | false =>
      rw [add_or_update_absent items info w hc]
      have hni : info.name ∉ names items := by
        intro hmem
        simp only [names, List.mem_map] at hmem
        obtain ⟨e, he, hname⟩ := hmem
        have : items.any (fun e => e.1.name == info.name) = true :=
          List.any_eq_true.mpr ⟨e, he, by simp [hname]⟩
        rw [hc] at this
        cases this
      have hsplit : names (items ++ [(info, w)]) = names items ++ [info.name] := by
        simp [names]
      rw [hsplit]
      refine List.Nodup.append h (List.nodup_singleton _) ?_
      intro x hx hx2
      simp only [List.mem_singleton] at hx2
      subst hx2
      exact hni hx

theorem names_nodup_applyAll (ops : List (LoraInfo × ℚ)) :
    (names (applyAll ops)).Nodup := by
  suffices hgen : ∀ s, (names s).Nodup →
      (names (ops.foldl (fun s op => add_or_update s op.1 op.2) s)).Nodup by
    exact hgen [] (by simp [names])
  induction ops with
  | nil => intro s hs; exact hs
  | cons op rest ih =>
      intro s hs
      exact ih _ (names_nodup_add_or_update s op.1 op.2 hs)

/-- Claim C7: the selection set keeps at most one entry per reference name:
any sequence of `add_or_update` calls on the empty set yields pairwise
distinct names; a call whose name is already present updates the weight in
place, preserving the name sequence (hence position, and no append); a call
with a fresh name appends at the end; and the concrete sequence
`add_or_update(refA, 1.0); add_or_update(refA, 1.7)` leaves exactly the
single entry `(refA, 1.7)`. -/
theorem add_or_update_identity_unique (ops items : List (LoraInfo × ℚ))
    (info : LoraInfo) (w : ℚ) :
    (names (applyAll ops)).Nodup ∧
    (items.any (fun e => e.1.name == info.name) = true →
      names (add_or_update items info w) = names items ∧
      weightOf (add_or_update items info w) info.name = some w) ∧
    (items.any (fun e => e.1.name == info.name) = false →
      add_or_update items info w = items ++ [(info, w)]) ∧
    applyAll [(refA, 1), (refA, 17/10)] = [(refA, 17/10)] := by
  refine ⟨names_nodup_applyAll ops, fun h => ⟨names_add_or_update_present items info w h, ?_⟩,
    add_or_update_absent items info w, ?_⟩
  · unfold add_or_update
    rw [if_pos h]
    exact weightOf_map_update items info w h
  · rfl

/-- Claim C7, witness: the uniqueness theorem evaluated on the concrete
two-call sequence on `refA`. -/
theorem add_or_update_identity_unique_witness :
    names (add_or_update [(refA, 1)] refA (17/10)) = ["A"] ∧
    weightOf (add_or_update [(refA, 1)] refA (17/10)) "A" = some (17/10) ∧
    add_or_update [] refA 1 = [(refA, 1)] ∧
    applyAll [(refA, 1), (refA, 17/10)] = [(refA, 17/10)] := by
  have h := add_or_update_identity_unique [] [(refA, 1)] refA (17/10)
  have hp := h.2.1 (by rfl)
  have ha := (add_or_update_identity_unique [] [] refA 1).2.2.1 (by rfl)
  exact ⟨hp.1.trans (by rfl), hp.2, ha.trans (by rfl), h.2.2.2⟩

end LoraSelectionList

/-! ## Claim C9 -/

/-- Claim C9, counterexample: the claim states that a model reference with
an empty base identity is rejected at construction, but `LoraInfo` is a
plain dataclass with no validation: constructing it with an empty name
succeeds and stores the empty name unchanged. -/
theorem loraInfo_empty_name_accepted :
    (LoraInfo.mk "" none none).name = "" ∧
    LoraInfo.mk "" none none = { name := "", «alias» := none, path := none } :=
  ⟨rfl, rfl⟩

/-- Claim C9, amended: the empty-identity rejection exists only for the
client's base URL: assigning an empty base URL raises
`ValueError("Base URL cannot be empty")` while any non-empty value is
accepted; `LoraInfo` construction performs no validation and stores its
fields unchanged (an empty name is silently accepted). -/
theorem empty_base_identity_validation (v : String) (h : v ≠ "") :
    StableDiffusionClient.set_base_url "" = .error "Base URL cannot be empty" ∧
    (∃ u, StableDiffusionClient.set_base_url v = .ok u) ∧
    (∀ n a p, LoraInfo.mk n a p = { name := n, «alias» := a, path := p }) := by
  refine ⟨rfl, ?_, fun n a p => rfl⟩
  unfold StableDiffusionClient.set_base_url
  rw [if_neg h]
  exact ⟨_, rfl⟩

/-- Claim C9, witness: the amended validation theorem evaluated on a
concrete base URL. -/
theorem empty_base_identity_validation_witness :
    StableDiffusionClient.set_base_url "" = .error "Base URL cannot be empty" ∧
    StableDiffusionClient.set_base_url "http://127.0.0.1:7860/" =
      .ok "http://127.0.0.1:7860" := by
  have h := empty_base_identity_validation "http://127.0.0.1:7860/" (by decide)
  exact ⟨h.1, by decide⟩

/-! ## Claim C3 -/

namespace PromptTextEdit

theorem scanStart_le (text : List Char) : ∀ pos, scanStart text pos ≤ pos
  | 0 => Nat.le_refl 0
  | pos + 1 => by
      unfold scanStart
      by_cases h : isSep (text.getD pos ',') = true
      · rw [if_pos h]
      · rw [if_neg h]
        exact Nat.le_succ_of_le (scanStart_le text pos)

theorem scanStart_nonsep (text : List Char) :
    ∀ pos i, scanStart text pos ≤ i → i < pos → isSep (text.getD i ',') = false
  | 0, i, _, hlt => absurd hlt (Nat.not_lt_zero i)
  | pos + 1, i, hge, hlt => by
      unfold scanStart at hge
      by_cases h : isSep (text.getD pos ',') = true
      · rw [if_pos h] at hge
        omega
      · rw [if_neg h] at hge
        rcases Nat.lt_succ_iff_lt_or_eq.mp hlt with hi | hi
        · exact scanStart_nonsep text pos i hge hi
        · subst hi
          exact Bool.eq_false_iff.mpr h

theorem scanStart_boundary (text : List Char) :
    ∀ pos, scanStart text pos = 0 ∨ isSep (text.getD (scanStart text pos - 1) ',') = true
  | 0 => Or.inl rfl
  | pos + 1 => by
      unfold scanStart
      by_cases h : isSep (text.getD pos ',') = true
      · rw [if_pos h]
        right
        simpa using h
      · rw [if_neg h]
        exact scanStart_boundary text pos

/-- Claim C3: completion-context resolution scans backward from the cursor
while the preceding character is not a comma, CR or LF (first conjunct:
the computed span start is at most the cursor, every character in the span
is a non-separator, and the span is maximal — its left neighbour, if any,
is a separator); the result strips leading whitespace from that span,
returns the stripped prefix with `replace_start` shifted by the number of
stripped characters, and is none exactly when the buffer is empty, the
cursor is at offset 0, or the stripped prefix is empty (second conjunct);
on buffer `"blue sky, re"` with cursor 12 it yields `(10, "re")` and on
buffer `"a,"` with cursor 2 it yields none (last conjuncts). -/
theorem current_completion_context_spec (text : List Char) (pos : Nat) :
    (scanStart text pos ≤ pos ∧
      (∀ i, scanStart text pos ≤ i → i < pos → isSep (text.getD i ',') = false) ∧
      (scanStart text pos = 0 ∨ isSep (text.getD (scanStart text pos - 1) ',') = true)) ∧
    current_completion_context text pos =
      (if text = [] ∨ pos = 0 ∨
          ((text.take pos).drop (scanStart text pos)).dropWhile Char.isWhitespace = []
        then none
        else some (scanStart text pos +
          (((text.take pos).drop (scanStart text pos)).length -
            (((text.take pos).drop (scanStart text pos)).dropWhile Char.isWhitespace).length),
          ((text.take pos).drop (scanStart text pos)).dropWhile Char.isWhitespace)) ∧
    current_completion_context "blue sky, re".data 12 = some (10, "re".data) ∧
    current_completion_context "a,".data 2 = none := by
  refine ⟨⟨scanStart_le text pos, scanStart_nonsep text pos, scanStart_boundary text pos⟩,
    ?_, by rfl, by rfl⟩
  unfold current_completion_context
  by_cases h1 : text = []
  · simp [h1]
  · by_cases h2 : pos = 0
    · simp [h2]
    · by_cases h3 :
        ((text.take pos).drop (scanStart text pos)).dropWhile Char.isWhitespace = [] <;>
        simp [h1, h2, h3]

end PromptTextEdit

/-! ## Claim C2 -/

theorem lexLeb_total : ∀ (as bs : List Char), lexLeb as bs = true ∨ lexLeb bs as = true
  | [], _ => Or.inl rfl
  | _ :: _, [] => Or.inr rfl
  | a :: as, b :: bs => by
      unfold lexLeb
      by_cases h1 : a.toNat < b.toNat
      · left
        rw [if_pos h1]
      · by_cases h2 : b.toNat < a.toNat
        · right
          rw [if_pos h2]
        · simp only [if_neg h1, if_neg h2]
          exact lexLeb_total as bs

theorem lexLeb_trans : ∀ (as bs cs : List Char),
    lexLeb as bs = true → lexLeb bs cs = true → lexLeb as cs = true
  | [], _, _, _, _ => rfl
  | _ :: _, [], _, h1, _ => by simp [lexLeb] at h1
  | _ :: _, _ :: _, [], _, h2 => by simp [lexLeb] at h2
  | a :: as, b :: bs, c :: cs, h1, h2 => by
      unfold lexLeb at h1 h2 ⊢
      by_cases hab : a.toNat < b.toNat <;> by_cases hbc : b.toNat < c.toNat
      · rw [if_pos (Nat.lt_trans hab hbc)]
      · rw [if_neg hbc] at h2
        by_cases hcb : c.toNat < b.toNat
        · rw [if_pos hcb] at h2
          cases h2
        · rw [if_pos (by omega : a.toNat < c.toNat)]
      · rw [if_neg hab] at h1
        by_cases hba : b.toNat < a.toNat
        · rw [if_pos hba] at h1
          cases h1
        · rw [if_pos (by omega : a.toNat < c.toNat)]
      · rw [if_neg hab] at h1
        rw [if_neg hbc] at h2
        by_cases hba : b.toNat < a.toNat
        · rw [if_pos hba] at h1
          cases h1
        · by_cases hcb : c.toNat < b.toNat
          · rw [if_pos hcb] at h2
            cases h2
          · rw [if_neg hba] at h1
            rw [if_neg hcb] at h2
            rw [if_neg (by omega : ¬a.toNat < c.toNat),
              if_neg (by omega : ¬c.toNat < a.toNat)]
            exact lexLeb_trans as bs cs h1 h2

namespace TagRepository

theorem dedupAgg_cons (seen : List String) (t : String) (ts : List String) :
    dedupAgg seen (t :: ts) =
      if pyStrip t = "" then dedupAgg seen ts
      else if pyLower (pyStrip t) ∈ seen then dedupAgg seen ts
      else pyStrip t :: dedupAgg (pyLower (pyStrip t) :: seen) ts := by
  simp only [dedupAgg]

theorem firstNormalized_cons_skip {t l : String} (ts : List String)
    (h : pyStrip t = "" ∨ pyLower (pyStrip t) ≠ l) :
    firstNormalized (t :: ts) l = firstNormalized ts l := by
  unfold firstNormalized
  rcases h with h | h <;> simp [List.filterMap_cons, h]

theorem firstNormalized_cons_hit {t l : String} (ts : List String)
    (h1 : pyStrip t ≠ "") (h2 : pyLower (pyStrip t) = l) :
    firstNormalized (t :: ts) l = some (pyStrip t) := by
  unfold firstNormalized
  simp [List.filterMap_cons, h1, h2]

theorem dedupAgg_lower_nodup :
    ∀ (ts : List String) (seen : List String),
      ((dedupAgg seen ts).map pyLower).Nodup ∧
      ∀ l ∈ (dedupAgg seen ts).map pyLower, l ∉ seen
  | [], seen => by simp [dedupAgg]
  | t :: ts, seen => by
      rw [dedupAgg_cons]
      by_cases h1 : pyStrip t = ""
      · rw [if_pos h1]
        exact dedupAgg_lower_nodup ts seen
      · rw [if_neg h1]
        by_cases h2 : pyLower (pyStrip t) ∈ seen
        · rw [if_pos h2]
          exact dedupAgg_lower_nodup ts seen
        · rw [if_neg h2]
          obtain ⟨ih1, ih2⟩ := dedupAgg_lower_nodup ts (pyLower (pyStrip t) :: seen)
          refine ⟨List.nodup_cons.mpr ⟨?_, ih1⟩, ?_⟩
          · intro hmem
            exact (ih2 _ hmem) (List.mem_cons_self _ _)
          · intro l hl
            simp only [List.map_cons, List.mem_cons] at hl
            rcases hl with rfl | hl
            · exact h2
            · intro hseen
              exact (ih2 l hl) (List.mem_cons_of_mem _ hseen)

theorem dedupAgg_first :
    ∀ (ts : List String) (seen : List String) (s : String),
      s ∈ dedupAgg seen ts → pyLower s ∉ seen →
      firstNormalized ts (pyLower s) = some s
  | [], _, s, hmem, _ => by simp [dedupAgg] at hmem
  | t :: ts, seen, s, hmem, hns => by
      rw [dedupAgg_cons] at hmem
      by_cases h1 : pyStrip t = ""
      · rw [if_pos h1] at hmem
        rw [firstNormalized_cons_skip ts (Or.inl h1)]
        exact dedupAgg_first ts seen s hmem hns
      · rw [if_neg h1] at hmem
        by_cases h2 : pyLower (pyStrip t) ∈ seen
        · rw [if_pos h2] at hmem
          rw [firstNormalized_cons_skip ts
            (Or.inr (fun hh => hns (by rw [← hh]; exact h2)))]
          exact dedupAgg_first ts seen s hmem hns
        · rw [if_neg h2] at hmem
          rcases List.mem_cons.mp hmem with rfl | hmem
          · exact firstNormalized_cons_hit ts h1 rfl
          · have hnot := (dedupAgg_lower_nodup ts (pyLower (pyStrip t) :: seen)).2
              (pyLower s) (List.mem_map_of_mem pyLower hmem)
            have hne : pyLower (pyStrip t) ≠ pyLower s := by
              intro hh
              exact hnot (hh ▸ List.mem_cons_self _ _)
            rw [firstNormalized_cons_skip ts (Or.inr hne)]
            exact dedupAgg_first ts (pyLower (pyStrip t) :: seen) s hmem hnot

theorem dedupAgg_complete :
    ∀ (ts : List String) (seen : List String) (t : String),
      t ∈ ts → pyStrip t ≠ "" → pyLower (pyStrip t) ∉ seen →
      ∃ s ∈ dedupAgg seen ts, pyLower s = pyLower (pyStrip t)
  | [], _, t, hmem, _, _ => absurd hmem (List.not_mem_nil t)
  | u :: ts, seen, t, hmem, hne, hns => by
      rw [dedupAgg_cons]
      by_cases h1 : pyStrip u = ""
      · rw [if_pos h1]
        rcases List.mem_cons.mp hmem with rfl | hmem
        · exact absurd h1 hne
        · exact dedupAgg_complete ts seen t hmem hne hns
      · rw [if_neg h1]
        by_cases h2 : pyLower (pyStrip u) ∈ seen
        · rw [if_pos h2]
          rcases List.mem_cons.mp hmem with rfl | hmem
          · exact absurd h2 hns
          · exact dedupAgg_complete ts seen t hmem hne hns
        · rw [if_neg h2]
          rcases List.mem_cons.mp hmem with rfl | hmem
          · exact ⟨pyStrip t, List.mem_cons_self _ _, rfl⟩
          · by_cases h3 : pyLower (pyStrip t) = pyLower (pyStrip u)
            · exact ⟨pyStrip u, List.mem_cons_self _ _, h3.symm⟩
            · obtain ⟨s, hs, hls⟩ := dedupAgg_complete ts (pyLower (pyStrip u) :: seen) t
                hmem hne (by
                  intro hh
                  rcases List.mem_cons.mp hh with hh | hh
                  · exact h3 hh
                  · exact hns hh)
              exact ⟨s, List.mem_cons_of_mem _ hs, hls⟩

/-- Claim C2: after `reload`, the tag list is sorted by the case-insensitive
order, no two entries are case-insensitively equal, every retained entry is
the first normalized occurrence of its case-insensitive class in the scanned
stream (first-seen casing wins) and every non-empty normalized raw tag is
represented; on the concrete stream of a file contributing `"Cat"` and a
text file contributing the line `"cat, 500"`, exactly the entry `"Cat"`
remains. -/
theorem reload_spec (raw : List String) :
    List.Sorted lowerLe (reload raw) ∧
    ((reload raw).map pyLower).Nodup ∧
    (∀ s ∈ reload raw, firstNormalized raw (pyLower s) = some s) ∧
    (∀ t ∈ raw, pyStrip t ≠ "" → ∃ s ∈ reload raw, pyLower s = pyLower (pyStrip t)) ∧
    reload (["Cat"] ++ loadTxt ["cat, 500"]) = ["Cat"] := by
  haveI : IsTotal String lowerLe := ⟨fun a b => lexLeb_total _ _⟩
  haveI : IsTrans String lowerLe := ⟨fun _ _ _ h1 h2 => lexLeb_trans _ _ _ h1 h2⟩
  have hperm : List.Perm (reload raw) (dedupAgg [] raw) :=
    List.perm_insertionSort lowerLe _
  refine ⟨List.sorted_insertionSort lowerLe _, ?_, ?_, ?_, by decide⟩
  · exact ((hperm.map pyLower).nodup_iff).mpr (dedupAgg_lower_nodup raw []).1
  · intro s hs
    exact dedupAgg_first raw [] s (hperm.mem_iff.mp hs) (List.not_mem_nil _)
  · intro t ht hne
    obtain ⟨s, hs, hls⟩ := dedupAgg_complete raw [] t ht hne (List.not_mem_nil _)
    exact ⟨s, hperm.mem_iff.mpr hs, hls⟩

/-- Claim C2, witness: the reload invariants evaluated on the concrete
stream `["Cat", "cat"]`. -/
theorem reload_spec_witness :
    reload ["Cat", "cat"] = ["Cat"] ∧
    firstNormalized ["Cat", "cat"] (pyLower "Cat") = some "Cat" := by
  have h := reload_spec ["Cat", "cat"]
  exact ⟨by decide, h.2.2.1 "Cat" (by decide)⟩

end TagRepository

/-! ## Claim C8 -/

namespace StableDiffusionClient

/-- Claim C8: an info field arriving as a string is decoded by a JSON
parse — a string parsing to a JSON object yields that object as the
metadata map, and an unparsable string yields the fallback map
`{"raw": <original string>}`; in particular the string
`'{"all_seeds": [7]}'` decodes to a map with `all_seeds = [7]` and the
string `'oops'` decodes to `{"raw": "oops"}`. -/
theorem decodeInfoString_spec :
    (∀ (s : String) (o : List (String × JVal)),
      json_loads s = some (.obj o) → decodeInfoString s = o) ∧
    (∀ s : String, json_loads s = none → decodeInfoString s = [("raw", .str s)]) ∧
    decodeInfoString "\x7b\"all_seeds\": [7]\x7d" = [("all_seeds", .arr [.num 7])] ∧
    decodeInfoString "oops" = [("raw", .str "oops")] := by
  refine ⟨?_, ?_, by rfl, by rfl⟩
  · intro s o h
    unfold decodeInfoString
    rw [h]
  · intro s h
    unfold decodeInfoString
    rw [h]

/-- Claim C8, witness: the decode theorem applied to the concrete
unparsable string `"nope"` (and a non-object JSON string, which yields the
empty map). -/
theorem decodeInfoString_spec_witness :
    decodeInfoString "nope" = [("raw", .str "nope")] ∧
    decodeInfoString "7" = [] := by
  exact ⟨decodeInfoString_spec.2.1 "nope" (by rfl), by rfl⟩

end StableDiffusionClient

/-! ## Decimal value lemmas (claims C4, C5, C6) -/

theorem Dec.val_add (a b : Dec) : (a.add b).val = a.val + b.val := by
  unfold Dec.add Dec.val
  simp only
  push_cast
  rw [add_div]
  congr 1
  · rw [show ((10:ℚ)) ^ max a.scale b.scale =
        (10:ℚ) ^ a.scale * (10:ℚ) ^ (max a.scale b.scale - a.scale) by
      rw [← pow_add]
      congr 1
      omega]
    rw [mul_comm ((10:ℚ) ^ a.scale) _]
    rw [show ((10:ℚ) ^ (max a.scale b.scale - a.scale) * (10:ℚ) ^ a.scale) =
        ((10:ℚ) ^ a.scale * (10:ℚ) ^ (max a.scale b.scale - a.scale)) by ring]
    exact mul_div_mul_right _ _ (pow_ne_zero _ (by norm_num))
  · rw [show ((10:ℚ)) ^ max a.scale b.scale =
        (10:ℚ) ^ b.scale * (10:ℚ) ^ (max a.scale b.scale - b.scale) by
      rw [← pow_add]
      congr 1
      omega]
    rw [show ((10:ℚ) ^ b.scale * (10:ℚ) ^ (max a.scale b.scale - b.scale)) =
        ((10:ℚ) ^ b.scale * (10:ℚ) ^ (max a.scale b.scale - b.scale)) by ring]
    exact mul_div_mul_right _ _ (pow_ne_zero _ (by norm_num))

theorem Dec.val_neg_iff (d : Dec) : d.val < 0 ↔ d.mant < 0 := by
  unfold Dec.val
  rw [div_lt_iff₀ (by positivity : (0:ℚ) < (10:ℚ) ^ d.scale), zero_mul]
  exact Int.cast_lt_zero

theorem Dec.val_nonneg_iff (d : Dec) : 0 ≤ d.val ↔ 0 ≤ d.mant := by
  rw [← not_lt, ← not_lt, Dec.val_neg_iff]

/-- Value of the clamped weight: `max (w + d) 0`. -/
theorem clampWeight_val_max (w d : Dec) :
    (clampWeight w d).val = max (w.val + d.val) 0 ∧ 0 ≤ (clampWeight w d).val := by
  unfold clampWeight
  simp only
  by_cases h : (w.add d).mant < 0
  · rw [if_pos h]
    have hneg : (w.add d).val < 0 := (Dec.val_neg_iff _).mpr h
    rw [Dec.val_add] at hneg
    constructor
    · show Dec.val ⟨0, 0⟩ = _
      rw [max_eq_right hneg.le]
      unfold Dec.val
      norm_num
    · show (0:ℚ) ≤ Dec.val ⟨0, 0⟩
      unfold Dec.val
      norm_num
  · rw [if_neg h]
    push_neg at h
    have hnn : 0 ≤ (w.add d).val := (Dec.val_nonneg_iff _).mpr h
    rw [Dec.val_add] at hnn
    rw [Dec.val_add]
    exact ⟨(max_eq_left hnn).symm, hnn⟩

/-! ## Digit-string lemmas -/

theorem digitChar_toNat {d : Nat} (h : d ≤ 9) : (digitChar d).toNat = 48 + d := by
  interval_cases d <;> decide

theorem digitChar_isDigit {d : Nat} (h : d ≤ 9) : (digitChar d).isDigit = true := by
  interval_cases d <;> decide

theorem digitChar_ne_zero {d : Nat} (h1 : 1 ≤ d) (h2 : d ≤ 9) : digitChar d ≠ '0' := by
  interval_cases d <;> decide

theorem digitsToNat_concat (xs : List Char) (c : Char) :
    digitsToNat (xs ++ [c]) = 10 * digitsToNat xs + (c.toNat - 48) := by
  unfold digitsToNat
  rw [List.foldl_append]
  simp [Nat.mul_comm]

theorem natDigitsGo_ne_nil (fuel n : Nat) (h : n < fuel) : natDigitsGo fuel n ≠ [] := by
  cases fuel with
  | zero => omega
  | succ f =>
      unfold natDigitsGo
      by_cases h10 : n < 10
      · rw [if_pos h10]
        simp
      · rw [if_neg h10]
        simp

theorem natDigitsGo_all_digits :
    ∀ (fuel n : Nat), n < fuel → ∀ c ∈ natDigitsGo fuel n, c.isDigit = true
  | 0, n, h => by omega
  | fuel + 1, n, h => by
      unfold natDigitsGo
      by_cases h10 : n < 10
      · rw [if_pos h10]
        intro c hc
        rw [List.mem_singleton] at hc
        subst hc
        exact digitChar_isDigit (by omega)
      · rw [if_neg h10]
        intro c hc
        rcases List.mem_append.mp hc with hc | hc
        · exact natDigitsGo_all_digits fuel (n / 10) (by omega) c hc
        · rw [List.mem_singleton] at hc
          subst hc
          exact digitChar_isDigit (by omega)

theorem digitsToNat_natDigitsGo :
    ∀ (fuel n : Nat), n < fuel → digitsToNat (natDigitsGo fuel n) = n
  | 0, n, h => by omega
  | fuel + 1, n, h => by
      unfold natDigitsGo
      by_cases h10 : n < 10
      · rw [if_pos h10]
        show digitsToNat ([] ++ [digitChar n]) = n
        rw [digitsToNat_concat, digitChar_toNat (by omega)]
        simp [digitsToNat]
      · rw [if_neg h10]
        rw [digitsToNat_concat, digitsToNat_natDigitsGo fuel (n / 10) (by omega),
          digitChar_toNat (by omega : n % 10 ≤ 9)]
        omega

theorem natDigitsGo_getLast :
    ∀ (fuel n : Nat), n < fuel →
      (natDigitsGo fuel n).getLast? = some (digitChar (n % 10))
  | 0, n, h => by omega
  | fuel + 1, n, h => by
      unfold natDigitsGo
      by_cases h10 : n < 10
      · rw [if_pos h10]
        rw [Nat.mod_eq_of_lt h10]
        rfl
      · rw [if_neg h10]
        exact List.getLast?_concat _

theorem natDigitsGo_length_le :
    ∀ (fuel n s : Nat), n < fuel → n < 10 ^ s → 1 ≤ s →
      (natDigitsGo fuel n).length ≤ s
  | 0, n, _, h, _, _ => by omega
  | fuel + 1, n, s, h, hpow, hs => by
      unfold natDigitsGo
      by_cases h10 : n < 10
      · rw [if_pos h10]
        simpa using hs
      · rw [if_neg h10]
        rw [List.length_append, List.length_singleton]
        have hs2 : 2 ≤ s := by
          by_contra hc
          have : s = 1 := by omega
          subst this
          simp at hpow
          omega
        have hdiv : n / 10 < 10 ^ (s - 1) := by
          rw [Nat.div_lt_iff_lt_mul (by norm_num)]
          calc n < 10 ^ s := hpow
          _ = 10 ^ (s - 1) * 10 := by
              rw [← pow_succ]
              congr 1
              omega
        have := natDigitsGo_length_le fuel (n / 10) (s - 1) (by omega) hdiv (by omega)
        omega

theorem digitsToNat_natDigits (n : Nat) : digitsToNat (natDigits n) = n :=
  digitsToNat_natDigitsGo (n + 1) n (Nat.lt_succ_self n)

theorem natDigits_ne_nil (n : Nat) : natDigits n ≠ [] :=
  natDigitsGo_ne_nil (n + 1) n (Nat.lt_succ_self n)

theorem natDigits_all_digits (n : Nat) : ∀ c ∈ natDigits n, c.isDigit = true :=
  natDigitsGo_all_digits (n + 1) n (Nat.lt_succ_self n)

theorem natDigits_getLast (n : Nat) :
    (natDigits n).getLast? = some (digitChar (n % 10)) :=
  natDigitsGo_getLast (n + 1) n (Nat.lt_succ_self n)

theorem natDigits_length_le {n s : Nat} (hpow : n < 10 ^ s) (hs : 1 ≤ s) :
    (natDigits n).length ≤ s :=
  natDigitsGo_length_le (n + 1) n s (Nat.lt_succ_self n) hpow hs

theorem digitsToNat_replicate_zero (k : Nat) (ds : List Char) :
    digitsToNat (List.replicate k '0' ++ ds) = digitsToNat ds := by
  induction k with
  | zero => rfl
  | succ m ih =>
      rw [List.replicate_succ]
      show digitsToNat ('0' :: (List.replicate m '0' ++ ds)) = digitsToNat ds
      unfold digitsToNat at *
      simpa using ih

/-! ## Normalization lemmas -/

theorem stripZeros_val :
    ∀ (s : Nat) (m : Int), (stripZeros m s).val = (m : ℚ) / (10 : ℚ) ^ s
  | 0, m => rfl
  | s + 1, m => by
      unfold stripZeros
      by_cases h : m % 10 = 0
      · rw [if_pos h]
        rw [stripZeros_val s (m / 10)]
        have hm : m / 10 * 10 = m := by omega
        have key : (m : ℚ) = ((m / 10 : Int) : ℚ) * 10 := by
          calc (m : ℚ) = ((m / 10 * 10 : Int) : ℚ) := by rw [hm]
          _ = ((m / 10 : Int) : ℚ) * 10 := by push_cast; ring
        rw [key, pow_succ]
        exact (mul_div_mul_right _ _ (by norm_num)).symm
      · rw [if_neg h]
        rfl

theorem stripZeros_minimal :
    ∀ (s : Nat) (m : Int),
      (stripZeros m s).scale = 0 ∨ (stripZeros m s).mant % 10 ≠ 0
  | 0, m => Or.inl rfl
  | s + 1, m => by
      unfold stripZeros
      by_cases h : m % 10 = 0
      · rw [if_pos h]
        exact stripZeros_minimal s (m / 10)
      · rw [if_neg h]
        exact Or.inr h

theorem stripZeros_of_minimal {s : Nat} {m : Int}
    (h : s = 0 ∨ m % 10 ≠ 0) : stripZeros m s = ⟨m, s⟩ := by
  cases s with
  | zero => rfl
  | succ t =>
      rcases h with h | h
      · cases h
      · unfold stripZeros
        rw [if_neg h]

theorem Dec.normalize_val (d : Dec) : d.normalize.val = d.val :=
  stripZeros_val d.scale d.mant

theorem Dec.normalize_minimal (d : Dec) :
    d.normalize.scale = 0 ∨ d.normalize.mant % 10 ≠ 0 :=
  stripZeros_minimal d.scale d.mant

theorem Dec.normalize_idem (d : Dec) : d.normalize.normalize = d.normalize :=
  stripZeros_of_minimal d.normalize_minimal

theorem minimal_val_inj_le (a b : Dec) (hle : a.scale ≤ b.scale)
    (hb : b.scale = 0 ∨ b.mant % 10 ≠ 0) (hv : a.val = b.val) : a = b := by
  unfold Dec.val at hv
  rw [div_eq_div_iff (by positivity) (by positivity)] at hv
  have hZ : a.mant * 10 ^ b.scale = b.mant * 10 ^ a.scale := by exact_mod_cast hv
  obtain ⟨k, hk⟩ : ∃ k, b.scale = a.scale + k := ⟨b.scale - a.scale, by omega⟩
  rw [hk, pow_add] at hZ
  have hZ2 : a.mant * 10 ^ k * 10 ^ a.scale = b.mant * 10 ^ a.scale := by
    rw [show a.mant * 10 ^ k * 10 ^ a.scale = a.mant * (10 ^ a.scale * 10 ^ k) by ring]
    exact hZ
  have hcan : a.mant * 10 ^ k = b.mant :=
    mul_right_cancel₀ (pow_ne_zero _ (by norm_num : (10:Int) ≠ 0)) hZ2
  cases k with
  | zero =>
      simp only [pow_zero, mul_one] at hcan
      obtain ⟨am, as⟩ := a
      obtain ⟨bm, bs⟩ := b
      simp only at hcan hk
      subst hcan
      rw [show bs = as by omega]
  | succ j =>
      exfalso
      have hdvd : b.mant % 10 = 0 := by
        rw [← hcan, pow_succ, ← mul_assoc]
        exact Int.mul_emod_left _ 10
      rcases hb with hb | hb
      · omega
      · exact hb hdvd

theorem minimal_val_inj (a b : Dec)
    (ha : a.scale = 0 ∨ a.mant % 10 ≠ 0)
    (hb : b.scale = 0 ∨ b.mant % 10 ≠ 0) (hv : a.val = b.val) : a = b := by
  rcases Nat.le_total a.scale b.scale with h | h
  · exact minimal_val_inj_le a b h hb hv
  · exact (minimal_val_inj_le b a h ha hv.symm).symm

theorem normalize_eq_of_val_eq {a b : Dec} (h : a.val = b.val) :
    a.normalize = b.normalize :=
  minimal_val_inj a.normalize b.normalize a.normalize_minimal b.normalize_minimal
    (by rw [a.normalize_val, b.normalize_val, h])

theorem formatWeight_congr {a b : Dec} (h : a.val = b.val) :
    formatWeight a = formatWeight b := by
  unfold formatWeight
  rw [normalize_eq_of_val_eq h]

theorem normalize_scale_zero_iff_den_one (d : Dec) :
    d.normalize.scale = 0 ↔ d.val.den = 1 := by
  constructor
  · intro h
    have hval : d.val = (d.normalize.mant : ℚ) := by
      rw [← d.normalize_val]
      unfold Dec.val
      rw [h]
      norm_num
    rw [hval]
    exact Rat.den_intCast _
  · intro h
    rcases d.normalize_minimal with hm | hm
    · exact hm
    · have hval : d.val = (d.val.num : ℚ) := by
        conv_lhs => rw [← Rat.num_div_den d.val]
        rw [h]
        norm_num
      have hval2 : (d.normalize.mant : ℚ) / (10 : ℚ) ^ d.normalize.scale =
          (d.val.num : ℚ) := by
        show d.normalize.val = (d.val.num : ℚ)
        rw [d.normalize_val, ← hval]
      rw [div_eq_iff (by positivity)] at hval2
      have hZ : d.normalize.mant = d.val.num * 10 ^ d.normalize.scale := by
        exact_mod_cast hval2
      cases hs : d.normalize.scale with
      | zero => rfl
      | succ j =>
          exfalso
          apply hm
          rw [hZ, hs, pow_succ, ← mul_assoc]
          exact Int.mul_emod_left _ 10

/-! ## Weight-format shape lemmas -/

theorem formatWeight_int_case (d : Dec) (h : d.normalize.scale = 0) :
    formatWeight d = intDigits d.normalize.mant ++ ".0".data := by
  unfold formatWeight
  rw [if_pos h]

theorem normalize_mant_eq_num (d : Dec) (h : d.normalize.scale = 0) :
    d.normalize.mant = d.val.num := by
  have hval : d.val = (d.normalize.mant : ℚ) := by
    rw [← d.normalize_val]
    unfold Dec.val
    rw [h]
    norm_num
  rw [hval, Rat.num_intCast]

theorem rstripZeros_of_last {l : List Char} {c : Char} (h : l.getLast? = some c)
    (hc : c ≠ '0') : rstripZeros l = l := by
  unfold rstripZeros
  have h2 : l.reverse.head? = some c := by rw [List.head?_reverse]; exact h
  rcases hrev : l.reverse with _ | ⟨x, xs⟩
  · rw [hrev] at h2
    cases h2
  · rw [hrev] at h2
    have hx : x = c := by
      simpa using h2
    subst hx
    rw [List.dropWhile_cons, if_neg (by simp [hc])]
    have h3 := congrArg List.reverse hrev
    rw [List.reverse_reverse] at h3
    exact h3.symm

theorem rstripDot_of_last {l : List Char} {c : Char} (h : l.getLast? = some c)
    (hc : c ≠ '.') : rstripDot l = l := by
  unfold rstripDot
  have h2 : l.reverse.head? = some c := by rw [List.head?_reverse]; exact h
  rcases hrev : l.reverse with _ | ⟨x, xs⟩
  · rw [hrev] at h2
    cases h2
  · rw [hrev] at h2
    have hx : x = c := by
      simpa using h2
    subst hx
    rw [List.dropWhile_cons, if_neg (by simp [hc])]
    have h3 := congrArg List.reverse hrev
    rw [List.reverse_reverse] at h3
    exact h3.symm

theorem padDigits_ne_nil {w : Nat} {ds : List Char} (h : ds ≠ []) :
    padDigits w ds ≠ [] := by
  unfold padDigits
  intro hh
  rcases List.append_eq_nil.mp hh with ⟨_, h2⟩
  exact h h2

theorem padDigits_getLast {w : Nat} {ds : List Char} (h : ds ≠ []) :
    (padDigits w ds).getLast? = ds.getLast? := by
  unfold padDigits
  exact List.getLast?_append_of_ne_nil _ h

theorem padDigits_all_digits {w : Nat} {ds : List Char}
    (h : ∀ c ∈ ds, c.isDigit = true) : ∀ c ∈ padDigits w ds, c.isDigit = true := by
  intro c hc
  rcases List.mem_append.mp hc with hc | hc
  · rw [List.eq_of_mem_replicate hc]
    decide
  · exact h c hc

theorem padDigits_length {w : Nat} {ds : List Char} (h : ds.length ≤ w) :
    (padDigits w ds).length = w := by
  unfold padDigits
  rw [List.length_append, List.length_replicate]
  omega

theorem digitsToNat_padDigits (w : Nat) (n : Nat) :
    digitsToNat (padDigits w (natDigits n)) = n := by
  unfold padDigits
  rw [digitsToNat_replicate_zero, digitsToNat_natDigits]

theorem decPosStr_nonneg (d : Dec) (h : ¬d.mant < 0) :
    decPosStr d = natDigits (d.mant.natAbs / 10 ^ d.scale) ++
      '.' :: padDigits d.scale (natDigits (d.mant.natAbs % 10 ^ d.scale)) := by
  unfold decPosStr
  rw [if_neg h]

theorem digitChar_ne_dot {d : Nat} (h : d ≤ 9) : digitChar d ≠ '.' := by
  interval_cases d <;> decide

theorem isDigit_ne_dash {c : Char} (h : c.isDigit = true) : c ≠ '-' := by
  intro hc
  rw [hc] at h
  exact absurd h (by decide)

theorem formatWeight_frac_spec (d : Dec) (h0 : 0 ≤ d.val) (hden : d.val.den ≠ 1) :
    formatWeight d = decPosStr d.normalize ∧
    formatWeight d ≠ [] ∧
    (formatWeight d).getLast? ≠ some '0' ∧
    (formatWeight d).getLast? ≠ some '.' := by
  have hscale : d.normalize.scale ≠ 0 := fun h =>
    hden ((normalize_scale_zero_iff_den_one d).mp h)
  have hmod : d.normalize.mant % 10 ≠ 0 := by
    rcases d.normalize_minimal with h | h
    · exact absurd h hscale
    · exact h
  have hmnn : 0 ≤ d.normalize.mant := (Dec.val_nonneg_iff _).mp
    (by rw [d.normalize_val]; exact h0)
  have hnl : ¬d.normalize.mant < 0 := by omega
  have hmodN : d.normalize.mant.natAbs % 10 ≠ 0 := by omega
  have hdvd : (10 : Nat) ∣ 10 ^ d.normalize.scale := by
    obtain ⟨s, hs⟩ : ∃ s, d.normalize.scale = s + 1 :=
      ⟨d.normalize.scale - 1, by omega⟩
    rw [hs]
    exact dvd_pow_self 10 (Nat.succ_ne_zero s)
  have hrmod : d.normalize.mant.natAbs % 10 ^ d.normalize.scale % 10 =
      d.normalize.mant.natAbs % 10 :=
    Nat.mod_mod_of_dvd _ hdvd
  have hpadne :
      padDigits d.normalize.scale
        (natDigits (d.normalize.mant.natAbs % 10 ^ d.normalize.scale)) ≠ [] :=
    padDigits_ne_nil (natDigits_ne_nil _)
  have hlast : (decPosStr d.normalize).getLast? =
      some (digitChar (d.normalize.mant.natAbs % 10)) := by
    rw [decPosStr_nonneg _ hnl]
    rw [List.getLast?_append_of_ne_nil _ (List.cons_ne_nil _ _)]
    rw [show ('.' ::
        padDigits d.normalize.scale
          (natDigits (d.normalize.mant.natAbs % 10 ^ d.normalize.scale))) =
      ['.'] ++
        padDigits d.normalize.scale
          (natDigits (d.normalize.mant.natAbs % 10 ^ d.normalize.scale)) from rfl]
    rw [List.getLast?_append_of_ne_nil _ hpadne]
    rw [padDigits_getLast (natDigits_ne_nil _), natDigits_getLast, hrmod]
  have hd9 : d.normalize.mant.natAbs % 10 ≤ 9 := by omega
  have hne0 : digitChar (d.normalize.mant.natAbs % 10) ≠ '0' :=
    digitChar_ne_zero (by omega) hd9
  have hnedot : digitChar (d.normalize.mant.natAbs % 10) ≠ '.' :=
    digitChar_ne_dot hd9
  have hposne : decPosStr d.normalize ≠ [] := by
    rw [decPosStr_nonneg _ hnl]
    intro hh
    rcases List.append_eq_nil.mp hh with ⟨h1, _⟩
    exact natDigits_ne_nil _ h1
  have hfmt : formatWeight d = decPosStr d.normalize := by
    unfold formatWeight
    rw [if_neg hscale, Dec.normalize_idem,
      rstripZeros_of_last hlast hne0, rstripDot_of_last hlast hnedot,
      if_neg hposne]
  refine ⟨hfmt, by rw [hfmt]; exact hposne, ?_, ?_⟩
  · rw [hfmt, hlast]
    simp [hne0]
  · rw [hfmt, hlast]
    simp [hnedot]

theorem takeWhile_digits_append :
    ∀ (A : List Char) (c : Char) (B : List Char),
      (∀ a ∈ A, a.isDigit = true) → c.isDigit = false →
      (A ++ c :: B).takeWhile Char.isDigit = A ∧
      (A ++ c :: B).dropWhile Char.isDigit = c :: B
  | [], c, B, _, hc => by
      rw [List.nil_append]
      constructor
      · rw [List.takeWhile_cons, if_neg (by simp [hc])]
      · rw [List.dropWhile_cons, if_neg (by simp [hc])]
  | a :: A, c, B, hA, hc => by
      have ha : a.isDigit = true := hA a (List.mem_cons_self a A)
      have htl := takeWhile_digits_append A c B
        (fun x hx => hA x (List.mem_cons_of_mem _ hx)) hc
      rw [List.cons_append]
      constructor
      · rw [List.takeWhile_cons, if_pos ha, htl.1]
      · rw [List.dropWhile_cons, if_pos ha, htl.2]

theorem decOfCharsPos_frac (A frac : List Char) (hAne : A ≠ [])
    (hA : ∀ a ∈ A, a.isDigit = true) (hfne : frac ≠ [])
    (hf : ∀ a ∈ frac, a.isDigit = true) :
    decOfCharsPos (A ++ '.' :: frac) =
      some ⟨(digitsToNat A * 10 ^ frac.length + digitsToNat frac : Int),
        frac.length⟩ := by
  obtain ⟨ht, hd⟩ := takeWhile_digits_append A '.' frac hA (by decide)
  unfold decOfCharsPos
  rw [ht, hd, if_neg hAne, if_neg (List.cons_ne_nil '.' frac),
    if_pos (show ('.' :: frac).headD ' ' = '.' from rfl)]
  simp only [List.drop_succ_cons, List.drop_zero]
  rw [if_pos ⟨hfne, List.all_eq_true.mpr hf⟩]

theorem decOfChars_of_digit_head (cs : List Char) (h : cs.headD ' ' ≠ '-') :
    decOfChars cs = decOfCharsPos cs := by
  unfold decOfChars
  rw [if_neg h]

theorem headD_digits_append {A : List Char} (rest : List Char) (hne : A ≠ [])
    (hA : ∀ a ∈ A, a.isDigit = true) : (A ++ rest).headD ' ' ≠ '-' := by
  rcases A with _ | ⟨x, xs⟩
  · exact absurd rfl hne
  · exact isDigit_ne_dash (hA x (List.mem_cons_self _ _))

theorem formatWeight_roundtrip (d : Dec) (h0 : 0 ≤ d.val) :
    ∃ e : Dec, decOfChars (formatWeight d) = some e ∧ e.val = d.val := by
  have hmnn : 0 ≤ d.normalize.mant := (Dec.val_nonneg_iff _).mp
    (by rw [d.normalize_val]; exact h0)
  have hN : (d.normalize.mant.natAbs : Int) = d.normalize.mant :=
    Int.natAbs_of_nonneg hmnn
  by_cases hden : d.val.den = 1
  · have hscale : d.normalize.scale = 0 := (normalize_scale_zero_iff_den_one d).mpr hden
    have hfmt : formatWeight d = natDigits d.normalize.mant.natAbs ++ '.' :: ['0'] := by
      rw [formatWeight_int_case d hscale]
      unfold intDigits
      rw [if_neg (by omega)]
    rw [hfmt, decOfChars_of_digit_head _
      (headD_digits_append _ (natDigits_ne_nil _) (natDigits_all_digits _))]
    rw [decOfCharsPos_frac _ _ (natDigits_ne_nil _) (natDigits_all_digits _)
      (by simp) (by intro c hc; rw [List.mem_singleton] at hc; subst hc; decide)]
    refine ⟨_, rfl, ?_⟩
    have hd0 : d.val = (d.normalize.mant : ℚ) := by
      rw [← d.normalize_val]
      unfold Dec.val
      rw [hscale]
      norm_num
    rw [hd0]
    unfold Dec.val
    simp only [digitsToNat_natDigits]
    rw [show digitsToNat ['0'] = 0 from rfl]
    rw [show (['0'] : List Char).length = 1 from rfl]
    push_cast [hN]
    ring
  · obtain ⟨hfmt, _, _, _⟩ := formatWeight_frac_spec d h0 hden
    have hscale : d.normalize.scale ≠ 0 := fun h =>
      hden ((normalize_scale_zero_iff_den_one d).mp h)
    have hnl : ¬d.normalize.mant < 0 := by omega
    have hrlt : d.normalize.mant.natAbs % 10 ^ d.normalize.scale <
        10 ^ d.normalize.scale :=
      Nat.mod_lt _ (Nat.pos_pow_of_pos _ (by norm_num))
    have hlen : (padDigits d.normalize.scale
        (natDigits (d.normalize.mant.natAbs % 10 ^ d.normalize.scale))).length =
        d.normalize.scale :=
      padDigits_length (natDigits_length_le hrlt (by omega))
    rw [hfmt, decPosStr_nonneg _ hnl]
    rw [decOfChars_of_digit_head _
      (headD_digits_append _ (natDigits_ne_nil _) (natDigits_all_digits _))]
    rw [decOfCharsPos_frac _ _ (natDigits_ne_nil _) (natDigits_all_digits _)
      (padDigits_ne_nil (natDigits_ne_nil _))
      (padDigits_all_digits (natDigits_all_digits _))]
    refine ⟨_, rfl, ?_⟩
    simp only [digitsToNat_natDigits, digitsToNat_padDigits, hlen]
    have hsum : d.normalize.mant.natAbs / 10 ^ d.normalize.scale *
        10 ^ d.normalize.scale +
        d.normalize.mant.natAbs % 10 ^ d.normalize.scale =
        d.normalize.mant.natAbs := by
      rw [Nat.mul_comm]
      exact Nat.div_add_mod _ _
    have hmantZ : ((d.normalize.mant.natAbs / 10 ^ d.normalize.scale : Nat) : Int) *
        10 ^ d.normalize.scale +
        ((d.normalize.mant.natAbs % 10 ^ d.normalize.scale : Nat) : Int) =
        d.normalize.mant := by
      rw [← hN]
      exact_mod_cast hsum
    rw [← d.normalize_val]
    unfold Dec.val
    congr 1
    exact_mod_cast hmantZ

/-! ## Claims C4 and C6 -/

/-- Claim C4: every successful weight adjustment produces the replacement
text `"(tag:weight)"`; a bare comma-free selection such as `"cat"` with
delta `+0.5` becomes `"(cat:1.5)"`; an integral new weight is rendered
with exactly one decimal place, and a non-integral one is rendered with no
trailing zeros and no trailing decimal point. -/
theorem replacement_format_spec (tag : String) (w d : Dec) :
    replacementText tag w d =
      "(" ++ tag ++ ":" ++ String.mk (formatWeight (clampWeight w d)) ++ ")" ∧
    ((clampWeight w d).val.den = 1 →
      formatWeight (clampWeight w d) =
        intDigits (clampWeight w d).val.num ++ ".0".data) ∧
    ((clampWeight w d).val.den ≠ 1 →
      formatWeight (clampWeight w d) ≠ [] ∧
      (formatWeight (clampWeight w d)).getLast? ≠ some '0' ∧
      (formatWeight (clampWeight w d)).getLast? ≠ some '.') ∧
    bareTagAdjust "cat" ⟨5, 1⟩ = some "(cat:1.5)" := by
  refine ⟨rfl, ?_, ?_, by decide⟩
  · intro hden
    have hscale := (normalize_scale_zero_iff_den_one _).mpr hden
    rw [formatWeight_int_case _ hscale, normalize_mant_eq_num _ hscale]
  · intro hden
    obtain ⟨_, h1, h2, h3⟩ := formatWeight_frac_spec _ (clampWeight_val_max w d).2 hden
    exact ⟨h1, h2, h3⟩

/-- Claim C4, witness: the formatting theorem evaluated at the bare tag
`"cat"` with weight `1.0` and delta `+0.5` (non-integral result `1.5`) and
at weight `1.0` with delta `+1.0` (integral result `2.0`). -/
theorem replacement_format_spec_witness :
    replacementText "cat" ⟨10, 1⟩ ⟨5, 1⟩ = "(cat:1.5)" ∧
    formatWeight (clampWeight ⟨10, 1⟩ ⟨10, 1⟩) =
      intDigits (clampWeight ⟨10, 1⟩ ⟨10, 1⟩).val.num ++ ".0".data ∧
    (formatWeight (clampWeight ⟨10, 1⟩ ⟨5, 1⟩)).getLast? ≠ some '0' := by
  have hfrac : (clampWeight ⟨10, 1⟩ ⟨5, 1⟩).val.den ≠ 1 := fun hd =>
    absurd ((normalize_scale_zero_iff_den_one _).mpr hd) (by decide)
  have hint : (clampWeight ⟨10, 1⟩ ⟨10, 1⟩).val.den = 1 :=
    (normalize_scale_zero_iff_den_one _).mp (by decide)
  refine ⟨(replacement_format_spec "cat" ⟨10, 1⟩ ⟨5, 1⟩).1.trans (by decide),
    (replacement_format_spec "x" ⟨10, 1⟩ ⟨10, 1⟩).2.1 hint,
    ((replacement_format_spec "cat" ⟨10, 1⟩ ⟨5, 1⟩).2.2.1 hfrac).2.1⟩

/-- Claim C6: starting from a weight that is a non-negative multiple of
0.5, adjusting by `+0.5` and then adjusting the resulting token (whose
weight is re-parsed from the formatted text, as the regex weight group is)
by `-0.5` yields a token whose formatted weight equals the formatted form
of the original weight. -/
theorem adjust_updown_roundtrip (w : Dec) (k : Nat) (hw : w.val = (k : ℚ) / 2) :
    ∃ w1 : Dec,
      decOfChars (formatWeight (clampWeight w ⟨5, 1⟩)) = some w1 ∧
      formatWeight (clampWeight w1 ⟨-5, 1⟩) = formatWeight w := by
  have h05 : (Dec.mk 5 1).val = 1 / 2 := by unfold Dec.val; norm_num
  have hneg : (Dec.mk (-5) 1).val = -(1 / 2) := by
    unfold Dec.val
    push_cast
    norm_num
  have hknn : (0 : ℚ) ≤ (k : ℚ) / 2 := by positivity
  have hup : (clampWeight w ⟨5, 1⟩).val = (k : ℚ) / 2 + 1 / 2 := by
    rw [(clampWeight_val_max w ⟨5, 1⟩).1, hw, h05]
    exact max_eq_left (by positivity)
  obtain ⟨w1, hparse, hval⟩ := formatWeight_roundtrip (clampWeight w ⟨5, 1⟩)
    (by rw [hup]; positivity)
  refine ⟨w1, hparse, ?_⟩
  apply formatWeight_congr
  rw [(clampWeight_val_max w1 ⟨-5, 1⟩).1, hval, hup, hneg, hw]
  rw [show ((k : ℚ) / 2 + 1 / 2 + -(1 / 2)) = (k : ℚ) / 2 by ring]
  exact max_eq_left hknn

/-- Claim C6, witness: the up-then-down roundtrip evaluated at the weight
`1.5` (three halves): up gives the token weight `"2.0"`, which parses back
and comes down to format `"1.5"` again. -/
theorem adjust_updown_roundtrip_witness :
    decOfChars (formatWeight (clampWeight ⟨15, 1⟩ ⟨5, 1⟩)) = some ⟨20, 1⟩ ∧
    formatWeight (clampWeight ⟨20, 1⟩ ⟨-5, 1⟩) = formatWeight ⟨15, 1⟩ := by
  have hc : decOfChars (formatWeight (clampWeight ⟨15, 1⟩ ⟨5, 1⟩)) =
      some ⟨20, 1⟩ := by decide
  obtain ⟨w1, h1, h2⟩ := adjust_updown_roundtrip ⟨15, 1⟩ 3
    (by unfold Dec.val; push_cast; norm_num)
  have hw1 : w1 = ⟨20, 1⟩ := by
    rw [hc] at h1
    exact (Option.some.inj h1).symm
  exact ⟨hc, hw1 ▸ h2⟩

/-- Claim C5: for every parsed weight `w` and delta `d`, the weight written
by an adjustment is `clamp(w + d, minimum 0, no upper bound)`; in
particular an adjustment never produces a weight below zero. -/
theorem clampWeight_clamps (w d : Dec) :
    (clampWeight w d).val = max (w.val + d.val) 0 ∧ 0 ≤ (clampWeight w d).val :=
  clampWeight_val_max w d

/-- Claim C5, witness: the clamp theorem evaluated at weight `0.5` and
delta `-1.0`, which floors at zero. -/
theorem clampWeight_clamps_witness :
    clampWeight ⟨5, 1⟩ ⟨-10, 1⟩ = ⟨0, 0⟩ ∧ 0 ≤ (clampWeight ⟨5, 1⟩ ⟨-10, 1⟩).val :=
  ⟨by decide, (clampWeight_clamps ⟨5, 1⟩ ⟨-10, 1⟩).2⟩
